import Mathlib

set_option maxRecDepth 100000

/- Verification of the dogetracker address indexer.

   Shallow embedding of: the relational projection store (server/db), the
   block-connect path `ProcessBlockTransactions` and the reorg-undo path
   `HandleChainReorganization` (package main), the mempool tracker's
   `checkMempool`, the block codec `DecodeBlock` (pkg/doge/encoding.go), the
   SPV header-sync handler `handleHeadersMessage` and the script-to-address
   helpers `ExtractAddresses` / `Base58CheckEncode` (pkg/doge/spv.go), and the
   HTTP `authMiddleware` / track / query handlers (server/api/server.go).

   Machine integers are modelled as Nat / Int (with explicit reductions mod
   2^w where overflow matters); Go float64 DOGE amounts (satoshi / 1e8) are
   modelled as exact rationals; byte slices are lists of Nat below 256;
   fallible operations return Option / Except. External interfaces (the
   Dogecoin RPC client, the `doge` script classifier, the SQL driver's
   per-statement failure) are parameters of the embedding. -/

/-- Go float64 DOGE amounts (satoshi / 1e8), modelled as exact rationals. -/
abbrev Amount := ℚ

/-! ## Byte and hex helpers (pkg/doge helpers HexEncode / HexEncodeReversed
    of the external dogeorg/doge dependency: standard lowercase hex). -/

def hexDigit (n : Nat) : Char :=
  if n < 10 then Char.ofNat (48 + n) else Char.ofNat (87 + n)

def byteToHex (b : Nat) : List Char :=
  [hexDigit (b / 16), hexDigit (b % 16)]

/-- Lowercase hex encoding of a byte slice. -/
def HexEncode (bs : List Nat) : String :=
  String.mk (bs.flatMap byteToHex)

/-- Hex encoding of the byte-reversed slice: txids travel little-endian on
the wire and are queried big-endian. -/
def HexEncodeReversed (bs : List Nat) : String :=
  HexEncode bs.reverse

/-! ## The relational projection store (server/db).

    Row types follow the `transactions`, `unspent_outputs`,
    `tracked_addresses` and `block_tracker` tables.  The Go model structs and
    the schema (InitDB) are not under src; nullable `block_hash` /
    `block_height` follow the spec (§3: null block fields mean a pending,
    zero-confirmation row), so they are `Option` here. -/

structure TrackedAddress where
  id : Int
  address : String
  requiredConfirmations : Int
  balance : Amount
deriving DecidableEq

structure Transaction where
  addressId : Int
  txId : String
  blockHash : Option String
  blockHeight : Option Int
  amount : Amount
  fee : Amount
  timestamp : Int
  isIncoming : Bool
  confirmations : Int
  status : String
  senderAddress : String
  receiverAddress : String
deriving DecidableEq

structure UnspentOutput where
  addressId : Int
  txId : String
  vout : Nat
  amount : Amount
  script : String
deriving DecidableEq

/-- The persistent state: the three projection tables plus the singleton
`block_tracker` cursor row, and the next SERIAL id for address inserts. -/
structure DBState where
  addresses : List TrackedAddress
  txRows : List Transaction
  utxos : List UnspentOutput
  cursorHeight : Int
  cursorHash : String
  nextAddressId : Int
deriving DecidableEq

def txKeyEq (aid : Int) (txId : String) (t : Transaction) : Bool :=
  t.addressId == aid && t.txId == txId

def utxoKeyEq (aid : Int) (txId : String) (vout : Nat) (u : UnspentOutput) : Bool :=
  u.addressId == aid && u.txId == txId && u.vout == vout

/-- Modelled from the spec: the `transactions` schema (InitDB is not under
src).  `AddTransaction`'s INSERT lists only (address_id, tx_id, block_hash,
block_height, amount, is_incoming, confirmations); the remaining columns take
their schema defaults, which per §3 (null block fields mean status pending)
are status `pending` and zero / empty for fee, timestamp and the two address
columns. -/
def insertedTxRow (aid : Int) (txId : String) (bh : Option String) (bht : Option Int)
    (amount : Amount) (inc : Bool) (conf : Int) : Transaction :=
  { addressId := aid, txId := txId, blockHash := bh, blockHeight := bht,
    amount := amount, fee := 0, timestamp := 0, isIncoming := inc,
    confirmations := conf, status := "pending",
    senderAddress := "", receiverAddress := "" }

/-- `AddTransaction` (server/db): INSERT of the seven listed columns, ON
CONFLICT (address_id, tx_id) DO UPDATE SET block_hash, block_height,
confirmations. -/
def AddTransaction (r : Transaction) (rows : List Transaction) : List Transaction :=
  if rows.any (txKeyEq r.addressId r.txId) then
    rows.map (fun t =>
      if txKeyEq r.addressId r.txId t then
        { t with blockHash := r.blockHash, blockHeight := r.blockHeight,
                 confirmations := r.confirmations }
      else t)
  else
    rows ++ [insertedTxRow r.addressId r.txId r.blockHash r.blockHeight
      r.amount r.isIncoming r.confirmations]

/-- `AddUnspentOutput` (server/db): upsert on (address_id, tx_id, vout); on
conflict update amount and script. -/
def AddUnspentOutput (u : UnspentOutput) (us : List UnspentOutput) : List UnspentOutput :=
  if us.any (utxoKeyEq u.addressId u.txId u.vout) then
    us.map (fun v =>
      if utxoKeyEq u.addressId u.txId u.vout v then
        { v with amount := u.amount, script := u.script }
      else v)
  else us ++ [u]

/-- `RemoveUnspentOutput` (server/db): exact delete. -/
def RemoveUnspentOutput (aid : Int) (txId : String) (vout : Nat)
    (us : List UnspentOutput) : List UnspentOutput :=
  us.filter (fun v => !utxoKeyEq aid txId vout v)

/-- The SQL clamp used throughout: CASE WHEN x > 50 THEN 50 ELSE x END. -/
def min50 (x : Int) : Int :=
  if x > 50 then 50 else x

/-- One row of the bulk confirmation UPDATE at the start of
`ProcessBlockTransactions` (main): confirmations from the new block height
and the old block_height column, status re-derived from
required_confirmations. -/
def refreshRow (h : Int) (req : Int) (r : Transaction) : Transaction :=
  match r.blockHeight with
  | some b =>
      { r with confirmations := min50 (h - b + 1),
               status := if min50 (h - b + 1) ≥ req then "confirmed" else "pending" }
  | none => { r with confirmations := 0, status := "pending" }

/-- One row of the per-transaction UPDATE used when the row already exists
(main, both the incoming and the outgoing path).  Postgres SET expressions
see the old column values, so the CASE on `block_height` reads the value from
before this UPDATE. -/
def updateRowFromBlock (bh : String) (h : Int) (fee : Amount) (ts : Int) (req : Int)
    (sender receiver : String) (r : Transaction) : Transaction :=
  let conf : Int :=
    match r.blockHeight with
    | some b => min50 (h - b + 1)
    | none => 1
  let stat : String :=
    match r.blockHeight with
    | some b => if min50 (h - b + 1) ≥ req then "confirmed" else "pending"
    | none => "pending"
  { r with blockHash := some bh, blockHeight := some h, fee := fee,
           timestamp := ts, confirmations := conf, status := stat,
           senderAddress := sender, receiverAddress := receiver }

/-! ## Mutating statements.

    Every SQL mutation issued by the indexer is one `Stmt`; `exec` runs it
    against the live state.  There is no BEGIN / COMMIT around any of the
    paths below: each statement autocommits on its own, and a statement error
    (`F s = true`) is logged by the Go code and execution continues. -/

inductive Stmt where
  | bulkRefresh (height : Int) (addrId : Int) (req : Int)
  | addUnspent (u : UnspentOutput)
  | addTx (r : Transaction)
  | updateTxBlock (aid : Int) (txId : String) (bh : String) (height : Int)
      (fee : Amount) (ts : Int) (req : Int) (sender receiver : String)
  | removeUnspent (aid : Int) (txId : String) (vout : Nat)
  | updBalance (aid : Int) (b : Amount)
  | setCursor (height : Int) (hash : String)
  | delTx (aid : Int) (txId : String)
deriving DecidableEq

def stmtEffect : Stmt → DBState → DBState
  | .bulkRefresh h aid req, st =>
      { st with txRows := st.txRows.map (fun r =>
          if r.addressId == aid then refreshRow h req r else r) }
  | .addUnspent u, st => { st with utxos := AddUnspentOutput u st.utxos }
  | .addTx r, st => { st with txRows := AddTransaction r st.txRows }
  | .updateTxBlock aid txId bh h fee ts req sndr rcvr, st =>
      { st with txRows := st.txRows.map (fun r =>
          if txKeyEq aid txId r then updateRowFromBlock bh h fee ts req sndr rcvr r else r) }
  | .removeUnspent aid txId vout, st =>
      { st with utxos := RemoveUnspentOutput aid txId vout st.utxos }
  | .updBalance aid b, st =>
      { st with addresses := st.addresses.map (fun a =>
          if a.id == aid then { a with balance := b } else a) }
  | .setCursor h hs, st => { st with cursorHeight := h, cursorHash := hs }
  | .delTx aid txId, st =>
      { st with txRows := st.txRows.filter (fun r => !txKeyEq aid txId r) }

/-- Run one autocommitted statement; `F s = true` means the SQL driver
returned an error for it (the Go code logs the error and moves on). -/
def exec (F : Stmt → Bool) (s : Stmt) (st : DBState) : DBState :=
  if F s then st else stmtEffect s st

/-- The run in which no statement fails. -/
def noFail : Stmt → Bool := fun _ => false

/-! ## Block data and the external chain interface.

    `ChainBlock` is tracker.ChainBlock restricted to the fields the indexer
    reads.  `ClassifyScript`, `GetRawTransaction` (plus the hex decode and
    `doge.DecodeTx` of its result) and `GetBlockHeader` are external calls,
    abstracted as functions; a `none` result stands for any error along the
    lookup chain, which the Go code answers by skipping the item. -/

structure BlockTxIn where
  txid : List Nat
  vout : Nat
deriving DecidableEq

structure BlockTxOut where
  value : Int
  script : List Nat
deriving DecidableEq

structure BlockTx where
  txID : String
  vin : List BlockTxIn
  vout : List BlockTxOut
deriving DecidableEq

structure ChainBlock where
  hash : String
  height : Int
  tx : List BlockTx
deriving DecidableEq

structure ChainEnv where
  /-- `doge.ClassifyScript`: (script type, address); type "" means
  unclassified. -/
  classify : List Nat → String × String
  /-- `GetRawTransaction` + hex decode + `doge.DecodeTx`, projected to the
  decoded outputs of the previous transaction. -/
  prevTxOuts : String → Option (List BlockTxOut)
  /-- `GetBlockHeader(hash).Time`. -/
  headerTime : String → Option Int

/-- Fee computation at the top of the per-transaction loop (main): sum of
resolvable previous-output values minus sum of output values; skipped lookups
contribute nothing; a transaction with no inputs has fee 0. -/
def txFee (env : ChainEnv) (tx : BlockTx) : Amount :=
  if tx.vin.length > 0 then
    let ti : Amount := tx.vin.foldl (fun acc vin =>
      if vin.txid.length = 0 then acc
      else
        match env.prevTxOuts (HexEncodeReversed vin.txid) with
        | none => acc
        | some outs =>
            match outs.get? vin.vout with
            | some o => acc + (o.value : Amount) / 100000000
            | none => acc) 0
    let tOut : Amount := tx.vout.foldl (fun acc o => acc + (o.value : Amount) / 100000000) 0
    ti - tOut
  else 0

/-- Best-effort sender derivation from the first input's previous output
(main); every failure leaves the sender empty. -/
def senderOf (env : ChainEnv) (tx : BlockTx) : String :=
  match tx.vin with
  | [] => ""
  | v0 :: _ =>
      if v0.txid.length > 0 then
        match env.prevTxOuts (HexEncodeReversed v0.txid) with
        | some outs =>
            match outs.get? v0.vout with
            | some o => (env.classify o.script).2
            | none => ""
        | none => ""
      else ""

/-! ## GetOrCreateAddress / GetAddressDetails (server/db). -/

/-- `GetOrCreateAddress`: select by address, insert with balance 0 when
absent.  The required_confirmations column is not in the INSERT; its schema
default is modelled from the spec (§3 requires it ≥ 1) as 1, InitDB not being
under src. -/
def GetOrCreateAddress (st : DBState) (address : String) : DBState × TrackedAddress :=
  match st.addresses.find? (fun a => a.address == address) with
  | some a => (st, a)
  | none =>
      let a : TrackedAddress :=
        { id := st.nextAddressId, address := address,
          requiredConfirmations := 1, balance := 0 }
      ({ st with addresses := st.addresses ++ [a],
                 nextAddressId := st.nextAddressId + 1 }, a)

/-- `GetAddressDetails`: get-or-create, then the address's transactions and
unspent outputs. -/
def GetAddressDetails (st : DBState) (address : String) :
    DBState × TrackedAddress × List Transaction × List UnspentOutput :=
  let p := GetOrCreateAddress st address
  (p.1, p.2, p.1.txRows.filter (fun t => t.addressId == p.2.id),
    p.1.utxos.filter (fun u => u.addressId == p.2.id))

def sumAmounts (us : List UnspentOutput) : Amount :=
  us.foldl (fun acc u => acc + u.amount) 0

/-- The closing balance sweep shared by `ProcessBlockTransactions` and
`HandleChainReorganization` (main): for every tracked address, re-read its
unspent outputs via `GetAddressDetails` and rewrite its balance. -/
def balanceSweep (F : Stmt → Bool) (tracked : List TrackedAddress) (st : DBState) : DBState :=
  tracked.foldl (fun s a =>
    let q := GetAddressDetails s a.address
    exec F (.updBalance a.id (sumAmounts q.2.2.2)) q.1) st

/-! ## ProcessBlockTransactions (main). -/

/-- The bulk confirmation refresh at the start of a block connect: one UPDATE
per tracked address over all of that address's rows. -/
def bulkConfirmationRefresh (F : Stmt → Bool) (height : Int)
    (tracked : List TrackedAddress) (st : DBState) : DBState :=
  tracked.foldl (fun s a =>
    exec F (.bulkRefresh height a.id a.requiredConfirmations) s) st

/-- Output (incoming) processing for one indexed output of one block
transaction. -/
def processOutput (env : ChainEnv) (F : Stmt → Bool) (blk : ChainBlock)
    (tracked : List TrackedAddress) (fee : Amount) (ts : Int) (tx : BlockTx)
    (st : DBState) (iv : Nat × BlockTxOut) : DBState :=
  let cls := env.classify iv.2.script
  if cls.1 = "" then st
  else
    match tracked.find? (fun a => a.address == cls.2) with
    | none => st
    | some a =>
        let amount : Amount := (iv.2.value : Amount) / 100000000
        let sender := senderOf env tx
        let u : UnspentOutput :=
          { addressId := a.id, txId := tx.txID, vout := iv.1,
            amount := amount, script := HexEncode iv.2.script }
        let st1 := exec F (.addUnspent u) st
        if st1.txRows.any (txKeyEq a.id tx.txID) then
          exec F (.updateTxBlock a.id tx.txID blk.hash blk.height fee ts
            a.requiredConfirmations sender cls.2) st1
        else
          exec F (.addTx
            { addressId := a.id, txId := tx.txID, blockHash := some blk.hash,
              blockHeight := some blk.height, amount := amount, fee := fee,
              timestamp := ts, isIncoming := true, confirmations := 1,
              status := if (1 : Int) ≥ a.requiredConfirmations then "confirmed" else "pending",
              senderAddress := sender, receiverAddress := cls.2 }) st1

/-- Input (outgoing) processing for one input of one block transaction. -/
def processInput (env : ChainEnv) (F : Stmt → Bool) (blk : ChainBlock)
    (tracked : List TrackedAddress) (fee : Amount) (ts : Int) (tx : BlockTx)
    (st : DBState) (vin : BlockTxIn) : DBState :=
  if vin.txid.length = 0 then st
  else
    let txIDHex := HexEncodeReversed vin.txid
    match env.prevTxOuts txIDHex with
    | none => st
    | some outs =>
        match outs.get? vin.vout with
        | none => st
        | some prevOut =>
            let cls := env.classify prevOut.script
            if cls.1 = "" then st
            else
              match tracked.find? (fun a => a.address == cls.2) with
              | none => st
              | some a =>
                  let amount : Amount := -((prevOut.value : Amount) / 100000000)
                  let receiver : String :=
                    match tx.vout with
                    | o0 :: _ => (env.classify o0.script).2
                    | [] => ""
                  let st1 := exec F (.removeUnspent a.id txIDHex vin.vout) st
                  if st1.txRows.any (txKeyEq a.id tx.txID) then
                    exec F (.updateTxBlock a.id tx.txID blk.hash blk.height fee ts
                      a.requiredConfirmations cls.2 receiver) st1
                  else
                    exec F (.addTx
                      { addressId := a.id, txId := tx.txID, blockHash := some blk.hash,
                        blockHeight := some blk.height, amount := amount, fee := fee,
                        timestamp := ts, isIncoming := false, confirmations := 1,
                        status := if (1 : Int) ≥ a.requiredConfirmations then "confirmed" else "pending",
                        senderAddress := cls.2, receiverAddress := receiver }) st1

/-- One block transaction: fee, block timestamp (a header fetch failure skips
the whole transaction), then the output and input loops. -/
def processTx (env : ChainEnv) (F : Stmt → Bool) (blk : ChainBlock)
    (tracked : List TrackedAddress) (st : DBState) (tx : BlockTx) : DBState :=
  let fee := txFee env tx
  match env.headerTime blk.hash with
  | none => st
  | some ts =>
      let st1 := tx.vout.enum.foldl (processOutput env F blk tracked fee ts tx) st
      tx.vin.foldl (processInput env F blk tracked fee ts tx) st1

/-- `ProcessBlockTransactions`: load the tracked-address map once, bulk
confirmation refresh, per-transaction processing, then the balance sweep.
The Go map iteration order is unspecified; the list order stands in for it
(the per-address statements are disjoint). -/
def ProcessBlockTransactions (env : ChainEnv) (F : Stmt → Bool)
    (blk : ChainBlock) (st : DBState) : DBState :=
  let tracked := st.addresses
  let st1 := bulkConfirmationRefresh F blk.height tracked st
  let st2 := blk.tx.foldl (processTx env F blk tracked) st1
  balanceSweep F tracked st2

/-- The connect branch of the main event loop: `UpdateLastProcessedBlock`
with the block's height and hash, then `ProcessBlockTransactions`. -/
def connectBlock (env : ChainEnv) (F : Stmt → Bool) (blk : ChainBlock)
    (st : DBState) : DBState :=
  ProcessBlockTransactions env F blk (exec F (.setCursor blk.height blk.hash) st)

/-! ## HandleChainReorganization (main). -/

structure UndoForkBlocks where
  blockHashes : List String
  lastValidHeight : Int
  resumeFromBlock : String
deriving DecidableEq

/-- One joined row of the undo SELECT: an incoming transaction with a
matching unspent output loses that output, then the transaction row is
deleted. -/
def undoStep (F : Stmt → Bool) (s : DBState) (p : Transaction × Option UnspentOutput) : DBState :=
  let s1 :=
    match p.2 with
    | some u =>
        if p.1.isIncoming then exec F (.removeUnspent u.addressId u.txId u.vout) s
        else s
    | none => s
  exec F (.delTx p.1.addressId p.1.txId) s1

/-- One invalid block hash: the SELECT joins the block's transactions LEFT
JOIN unspent_outputs on (address_id, tx_id); per joined row, an incoming
transaction with a matching unspent output loses that output, and the
transaction row is deleted.  The join is evaluated against the state at the
start of the pass. -/
def undoPass (F : Stmt → Bool) (st : DBState) (h : String) : DBState :=
  let pairs : List (Transaction × Option UnspentOutput) :=
    (st.txRows.filter (fun t => t.blockHash == some h)).flatMap (fun t =>
      let us := st.utxos.filter (fun u => u.addressId == t.addressId && u.txId == t.txId)
      if us.isEmpty then [(t, none)] else us.map (fun u => (t, some u)))
  pairs.foldl (undoStep F) st

/-- `HandleChainReorganization`: per invalid block hash, delete its rows and
the unspent outputs its incoming rows created, then the balance sweep.  The
main undo branch issues no cursor update. -/
def HandleChainReorganization (F : Stmt → Bool) (u : UndoForkBlocks)
    (st : DBState) : DBState :=
  let tracked := st.addresses
  let st1 := u.blockHashes.foldl (undoPass F) st
  balanceSweep F tracked st1

/-! Outcome predicates for stating what a reorg removes.  `txKeys` lists the
(address_id, tx_id) pairs of the transaction rows; the real schema declares
UNIQUE(address_id, tx_id), so a well-formed state has them Nodup. -/

def txKeys (rows : List Transaction) : List (Int × String) :=
  rows.map (fun t => (t.addressId, t.txId))

/-- A transaction row is undone by the reorg when its block hash is one of
the invalid hashes. -/
def undoneRow (hashes : List String) (t : Transaction) : Bool :=
  hashes.any (fun h => t.blockHash == some h)

/-- An unspent output is removed by the reorg when some undone incoming row
carries its (address_id, tx_id). -/
def undoneUtxo (hashes : List String) (rows : List Transaction) (v : UnspentOutput) : Bool :=
  rows.any (fun t => undoneRow hashes t && (t.isIncoming &&
    (v.addressId == t.addressId && v.txId == t.txId)))

/-- The balance the reorg's closing sweep computes for one address: the sum
of its unspent outputs that survive the undo. -/
def reorgBalance (u : UndoForkBlocks) (st : DBState) (a : TrackedAddress) : Amount :=
  sumAmounts ((st.utxos.filter (fun v => !undoneUtxo u.blockHashes st.txRows v)).filter
    (fun v => v.addressId == a.id))

/-! ## checkMempool (pkg/mempool). -/

/-- One successfully fetched and decoded mempool transaction: its txid, the
decoded transaction, and the mempool entry time.  Entries whose RPC fetch or
decode fails are skipped by the Go code and hence absent here. -/
structure MemEntry where
  txid : String
  tx : BlockTx
  time : Int
deriving DecidableEq

/-- Mempool output (incoming) processing: insert a pending row only when the
(address_id, tx_id) key is absent. -/
def memOut (env : ChainEnv) (tracked : List TrackedAddress) (txid : String)
    (time : Int) (tx : BlockTx) (st : DBState) (vout : BlockTxOut) : DBState :=
  let cls := env.classify vout.script
  if cls.1 = "" then st
  else
    match tracked.find? (fun a => a.address == cls.2) with
    | none => st
    | some a =>
        let amount : Amount := (vout.value : Amount) / 100000000
        let sender := senderOf env tx
        if st.txRows.any (txKeyEq a.id txid) then st
        else
          let r : Transaction :=
            { addressId := a.id, txId := txid, blockHash := none,
              blockHeight := none, amount := amount, fee := 0,
              timestamp := time, isIncoming := true, confirmations := 0,
              status := "pending", senderAddress := sender,
              receiverAddress := cls.2 }
          { st with txRows := AddTransaction r st.txRows }

/-- Mempool input (outgoing) processing. -/
def memIn (env : ChainEnv) (tracked : List TrackedAddress) (txid : String)
    (time : Int) (tx : BlockTx) (st : DBState) (vin : BlockTxIn) : DBState :=
  if vin.txid.length = 0 then st
  else
    match env.prevTxOuts (HexEncodeReversed vin.txid) with
    | none => st
    | some outs =>
        match outs.get? vin.vout with
        | none => st
        | some prevOut =>
            let cls := env.classify prevOut.script
            if cls.1 = "" then st
            else
              match tracked.find? (fun a => a.address == cls.2) with
              | none => st
              | some a =>
                  let amount : Amount := -((prevOut.value : Amount) / 100000000)
                  let receiver : String :=
                    match tx.vout with
                    | o0 :: _ => (env.classify o0.script).2
                    | [] => ""
                  if st.txRows.any (txKeyEq a.id txid) then st
                  else
                    let r : Transaction :=
                      { addressId := a.id, txId := txid, blockHash := none,
                        blockHeight := none, amount := amount, fee := 0,
                        timestamp := time, isIncoming := false, confirmations := 0,
                        status := "pending", senderAddress := cls.2,
                        receiverAddress := receiver }
                    { st with txRows := AddTransaction r st.txRows }

/-- One mempool tick: refresh the tracked-address map from the store, then
per mempool transaction run the output and input classification, inserting
pending rows only for absent (address_id, tx_id) keys. -/
def checkMempool (env : ChainEnv) (entries : List MemEntry) (st : DBState) : DBState :=
  let tracked := st.addresses
  entries.foldl (fun s e =>
    let s1 := e.tx.vout.foldl (memOut env tracked e.txid e.time e.tx) s
    e.tx.vin.foldl (memIn env tracked e.txid e.time e.tx) s1) st

/-! ## The HTTP API (server/api/server.go). -/

structure TrackRequest where
  address : String
  requiredConfirmations : Int
deriving DecidableEq

inductive ApiResult where
  | methodNotAllowed
  | badRequest
  | ok (addr : TrackedAddress) (txs : List Transaction) (utxos : List UnspentOutput)
deriving DecidableEq

/-- Go strings.Split with a one-character separator: every occurrence splits,
empty fields are kept. -/
def goSplitAux (sep : Char) : List Char → List Char → List (List Char)
  | [], acc => [acc.reverse]
  | c :: cs, acc =>
      if c = sep then acc.reverse :: goSplitAux sep cs []
      else goSplitAux sep cs (c :: acc)

def goSplit (sep : Char) (s : List Char) : List (List Char) :=
  goSplitAux sep s []

/-- `authMiddleware`: an empty Authorization header, a split that is not two
parts, a first part other than Bearer, or a second part other than the
configured token yields 401 without invoking the wrapped handler; the handler
runs only on the success path. -/
def authMiddleware {α : Type} (apiToken : List Char) (next : Unit → α)
    (authHeader : List Char) : Except Nat α :=
  if authHeader = [] then .error 401
  else
    let parts := goSplit ' ' authHeader
    if parts.length ≠ 2 ∨ parts.getD 0 [] ≠ "Bearer".toList ∨ parts.getD 1 [] ≠ apiToken then
      .error 401
    else .ok (next ())

/-- Modelled from the spec: `GetOrCreateAddressWithDetails` lives in the
server/db package, which is not under src.  Per §6, registration stores the
(already coerced) required_confirmations for the address — creating it with
balance 0 when absent — and returns the address details. -/
def GetOrCreateAddressWithDetails (st : DBState) (address : String) (req : Int) :
    DBState × TrackedAddress × List Transaction × List UnspentOutput :=
  match st.addresses.find? (fun a => a.address == address) with
  | some a =>
      let st' := { st with addresses := st.addresses.map (fun b =>
        if b.address == address then { b with requiredConfirmations := req } else b) }
      (st', { a with requiredConfirmations := req },
        st'.txRows.filter (fun t => t.addressId == a.id),
        st'.utxos.filter (fun u => u.addressId == a.id))
  | none =>
      let a : TrackedAddress :=
        { id := st.nextAddressId, address := address,
          requiredConfirmations := req, balance := 0 }
      let st' := { st with addresses := st.addresses ++ [a],
                           nextAddressId := st.nextAddressId + 1 }
      (st', a, st'.txRows.filter (fun t => t.addressId == a.id),
        st'.utxos.filter (fun u => u.addressId == a.id))

/-- `handleTrackAddress`: POST only; an undecodable body is a 400; a
required_confirmations below 1 is coerced to 1; then get-or-create with
details and a 200 response.  The body is modelled post-JSON-decode, `none`
standing for a decode failure; an absent required_confirmations field decodes
to Go's zero value 0. -/
def handleTrackAddress (method : String) (body : Option TrackRequest)
    (st : DBState) : DBState × ApiResult :=
  if method ≠ "POST" then (st, .methodNotAllowed)
  else
    match body with
    | none => (st, .badRequest)
    | some req =>
        let rc := if req.requiredConfirmations < 1 then 1 else req.requiredConfirmations
        let q := GetOrCreateAddressWithDetails st req.address rc
        (q.1, .ok q.2.1 q.2.2.1 q.2.2.2)

/-- `handleGetAddress`: GET only; an empty path remainder is a 400; otherwise
`GetAddressDetails` and a 200 response. -/
def handleGetAddress (method : String) (address : String)
    (st : DBState) : DBState × ApiResult :=
  if method ≠ "GET" then (st, .methodNotAllowed)
  else if address = "" then (st, .badRequest)
  else
    let q := GetAddressDetails st address
    (q.1, .ok q.2.1 q.2.2.1 q.2.2.2)

/-! ## Byte decoders (pkg/doge).

    A `Decoder` consumes a prefix of a byte list and reports the consumed
    length; for transactions the consumed length is exactly the Go
    `SerializeSize`. -/

def Decoder (α : Type) : Type := List Nat → Option (α × Nat)

def dpure {α : Type} (a : α) : Decoder α := fun _ => some (a, 0)

def dbind {α β : Type} (p : Decoder α) (q : α → Decoder β) : Decoder β := fun xs =>
  match p xs with
  | none => none
  | some (a, k) =>
      match q a (xs.drop k) with
      | none => none
      | some (b, m) => some (b, k + m)

def dfail {α : Type} : Decoder α := fun _ => none

def readBytes (n : Nat) : Decoder (List Nat) := fun xs =>
  if n ≤ xs.length then some (xs.take n, n) else none

/-- Little-endian byte list to Nat. -/
def leBytesToNat (bs : List Nat) : Nat :=
  bs.foldr (fun b acc => b + 256 * acc) 0

/-- Big-endian byte list to Nat (the order big.Int SetBytes uses). -/
def beBytesToNat (bs : List Nat) : Nat :=
  bs.foldl (fun acc b => acc * 256 + b) 0

/-- Modelled from the spec: `doge.DecodeVarInt` is not under src; §4.1 gives
the Bitcoin varint rules (below 0xFD inline, 0xFD two more bytes, 0xFE four,
0xFF eight, little-endian). -/
def varIntDecoder : Decoder Nat :=
  dbind (readBytes 1) (fun bs =>
    match bs with
    | [b0] =>
        if b0 < 0xFD then dpure b0
        else if b0 = 0xFD then dbind (readBytes 2) (fun t => dpure (leBytesToNat t))
        else if b0 = 0xFE then dbind (readBytes 4) (fun t => dpure (leBytesToNat t))
        else dbind (readBytes 8) (fun t => dpure (leBytesToNat t))
    | _ => dfail)

/-- The Go `DecodeVarInt` shape: (value, size), size 0 signalling failure. -/
def DecodeVarInt (xs : List Nat) : Nat × Nat :=
  match varIntDecoder xs with
  | some (v, n) => (v, n)
  | none => (0, 0)

structure DecTxIn where
  prevHash : List Nat
  prevIndex : Nat
  script : List Nat
  sequence : Nat
deriving DecidableEq

structure DecTxOut where
  value : Nat
  script : List Nat
deriving DecidableEq

structure DecTx where
  version : Nat
  vin : List DecTxIn
  vout : List DecTxOut
  lockTime : Nat
deriving DecidableEq

def dcount {α : Type} (p : Decoder α) : Nat → Decoder (List α)
  | 0 => dpure []
  | n+1 => dbind p (fun a => dbind (dcount p n) (fun as => dpure (a :: as)))

def txInDecoder : Decoder DecTxIn :=
  dbind (readBytes 32) (fun ph =>
  dbind (readBytes 4) (fun pidx =>
  dbind varIntDecoder (fun sl =>
  dbind (readBytes sl) (fun sc =>
  dbind (readBytes 4) (fun sq =>
  dpure { prevHash := ph, prevIndex := leBytesToNat pidx,
          script := sc, sequence := leBytesToNat sq })))))

def txOutDecoder : Decoder DecTxOut :=
  dbind (readBytes 8) (fun v =>
  dbind varIntDecoder (fun sl =>
  dbind (readBytes sl) (fun sc =>
  dpure { value := leBytesToNat v, script := sc })))

/-- Modelled from the spec: `doge.DecodeTransaction` is not under src; §4.1:
version u32 LE, varint input count, inputs (prev hash 32, prev index u32,
varint script length, script, sequence u32), varint output count, outputs
(value u64, varint script length, script), lock_time u32. -/
def DecodeTransaction : Decoder DecTx :=
  dbind (readBytes 4) (fun ver =>
  dbind varIntDecoder (fun nin =>
  dbind (dcount txInDecoder nin) (fun ins =>
  dbind varIntDecoder (fun nout =>
  dbind (dcount txOutDecoder nout) (fun outs =>
  dbind (readBytes 4) (fun lt =>
  dpure { version := leBytesToNat ver, vin := ins, vout := outs,
          lockTime := leBytesToNat lt }))))))

structure CodecBlockHeader where
  version : Nat
  prevBlock : List Nat
  merkleRoot : List Nat
  timestamp : Nat
  bits : Nat
  nonce : Nat
deriving DecidableEq

structure CodecBlock where
  header : CodecBlockHeader
  tx : List DecTx
deriving DecidableEq

/-- The 80-byte header fields of `DecodeBlock`, read little-endian at fixed
offsets. -/
def parseHeader80 (data : List Nat) : CodecBlockHeader :=
  { version := leBytesToNat (data.take 4),
    prevBlock := (data.drop 4).take 32,
    merkleRoot := (data.drop 36).take 32,
    timestamp := leBytesToNat ((data.drop 68).take 4),
    bits := leBytesToNat ((data.drop 72).take 4),
    nonce := leBytesToNat ((data.drop 76).take 4) }

/-- The regular-block transaction loop of `DecodeBlock`: decode the announced
number of transactions, advancing by each transaction's serialized size. -/
def decodeTxLoop (hdr : CodecBlockHeader) : Nat → List Nat → List DecTx → Except String CodecBlock
  | 0, _, acc => .ok { header := hdr, tx := acc.reverse }
  | n+1, rest, acc =>
      match DecodeTransaction rest with
      | none => .error "transaction decode error"
      | some (tx, k) => decodeTxLoop hdr n (rest.drop k) (tx :: acc)

/-- `DecodeBlock` (pkg/doge/encoding.go): length check, 80-byte header, then
the AuxPoW branch (version at least 0x20000000) that decodes only the
parent-chain coinbase and returns without touching the remaining AuxPoW
bytes, or the regular branch that decodes all announced transactions. -/
def DecodeBlock (data : List Nat) : Except String CodecBlock :=
  if data.length < 80 then .error "block data too short"
  else
    let hdr := parseHeader80 data
    let rest := data.drop 80
    if hdr.version ≥ 0x20000000 then
      let vc := DecodeVarInt rest
      if vc.2 = 0 then .error "invalid transaction count"
      else if vc.1 > 0 then
        match DecodeTransaction (rest.drop vc.2) with
        | none => .error "transaction decode error"
        | some (tx, _) => .ok { header := hdr, tx := [tx] }
      else .ok { header := hdr, tx := [] }
    else
      let vc := DecodeVarInt rest
      if vc.2 = 0 then .error "invalid transaction count"
      else decodeTxLoop hdr vc.1 (rest.drop vc.2) []

/-- Prefix stability of a decoder: a successful parse consumes at most the
input, and parses the same value from the consumed prefix followed by
anything.  This is what "skips the AuxPoW bytes without reading them" means
for `DecodeBlock`'s coinbase parse. -/
def DStable {α : Type} (p : Decoder α) : Prop :=
  ∀ xs r k, p xs = some (r, k) → k ≤ xs.length ∧ ∀ ys, p (xs.take k ++ ys) = some (r, k)

/-! ## SHA-256 (the crypto/sha256 dependency), executable over Nat words
    reduced mod 2^32. -/

def w32 (n : Nat) : Nat := n % 4294967296

def rotr32 (x n : Nat) : Nat := w32 (x / 2 ^ n + x % 2 ^ n * 2 ^ (32 - n))

def shaCh (x y z : Nat) : Nat := (x &&& y) ^^^ ((x ^^^ 4294967295) &&& z)

def shaMaj (x y z : Nat) : Nat := (x &&& y) ^^^ (x &&& z) ^^^ (y &&& z)

def bigSigma0 (x : Nat) : Nat := rotr32 x 2 ^^^ rotr32 x 13 ^^^ rotr32 x 22

def bigSigma1 (x : Nat) : Nat := rotr32 x 6 ^^^ rotr32 x 11 ^^^ rotr32 x 25

def smallSigma0 (x : Nat) : Nat := rotr32 x 7 ^^^ rotr32 x 18 ^^^ x / 8

def smallSigma1 (x : Nat) : Nat := rotr32 x 17 ^^^ rotr32 x 19 ^^^ x / 1024

structure Sha256State where
  a : Nat
  b : Nat
  c : Nat
  d : Nat
  e : Nat
  f : Nat
  g : Nat
  hh : Nat
deriving DecidableEq

def sha256Init : Sha256State :=
  ⟨1779033703, 3144134277, 1013904242, 2773480762,
   1359893119, 2600822924, 528734635, 1541459225⟩

def sha256K : List Nat :=
  [1116352408, 1899447441, 3049323471, 3921009573, 961987163,
   1508970993, 2453635748, 2870763221, 3624381080, 310598401,
   607225278, 1426881987, 1925078388, 2162078206, 2614888103,
   3248222580, 3835390401, 4022224774, 264347078, 604807628,
   770255983, 1249150122, 1555081692, 1996064986, 2554220882,
   2821834349, 2952996808, 3210313671, 3336571891, 3584528711,
   113926993, 338241895, 666307205, 773529912, 1294757372,
   1396182291, 1695183700, 1986661051, 2177026350, 2456956037,
   2730485921, 2820302411, 3259730800, 3345764771, 3516065817,
   3600352804, 4094571909, 275423344, 430227734, 506948616,
   659060556, 883997877, 958139571, 1322822218, 1537002063,
   1747873779, 1955562222, 2024104815, 2227730452, 2361852424,
   2428436474, 2756734187, 3204031479, 3329325298]

def sha256Round (st : Sha256State) (wk : Nat × Nat) : Sha256State :=
  let t1 := w32 (st.hh + bigSigma1 st.e + shaCh st.e st.f st.g + wk.2 + wk.1)
  let t2 := w32 (bigSigma0 st.a + shaMaj st.a st.b st.c)
  { a := w32 (t1 + t2), b := st.a, c := st.b, d := st.c,
    e := w32 (st.d + t1), f := st.e, g := st.f, hh := st.g }

def extendSchedule : Nat → List Nat → List Nat
  | 0, ws => ws
  | n+1, ws =>
      let i := ws.length
      let nw := w32 (ws.getD (i - 16) 0 + smallSigma0 (ws.getD (i - 15) 0) +
        ws.getD (i - 7) 0 + smallSigma1 (ws.getD (i - 2) 0))
      extendSchedule n (ws ++ [nw])

def chunkWords (chunk : List Nat) : List Nat :=
  (List.range 16).map (fun i => beBytesToNat ((chunk.drop (4 * i)).take 4))

def sha256Compress (hs : Sha256State) (chunk : List Nat) : Sha256State :=
  let ws := extendSchedule 48 (chunkWords chunk)
  let st := (ws.zip sha256K).foldl sha256Round hs
  { a := w32 (hs.a + st.a), b := w32 (hs.b + st.b), c := w32 (hs.c + st.c),
    d := w32 (hs.d + st.d), e := w32 (hs.e + st.e), f := w32 (hs.f + st.f),
    g := w32 (hs.g + st.g), hh := w32 (hs.hh + st.hh) }

def beBytes8 (n : Nat) : List Nat :=
  [n / 2 ^ 56 % 256, n / 2 ^ 48 % 256, n / 2 ^ 40 % 256, n / 2 ^ 32 % 256,
   n / 2 ^ 24 % 256, n / 2 ^ 16 % 256, n / 2 ^ 8 % 256, n % 256]

def sha256Pad (msg : List Nat) : List Nat :=
  let l := msg.length
  let padLen := (64 - (l + 9) % 64) % 64
  msg ++ [0x80] ++ List.replicate padLen 0 ++ beBytes8 (8 * l)

def wordBE (w : Nat) : List Nat :=
  [w / 16777216 % 256, w / 65536 % 256, w / 256 % 256, w % 256]

def sha256 (msg : List Nat) : List Nat :=
  let padded := sha256Pad msg
  let final := (List.range (padded.length / 64)).foldl
    (fun hs i => sha256Compress hs ((padded.drop (64 * i)).take 64)) sha256Init
  wordBE final.a ++ wordBE final.b ++ wordBE final.c ++ wordBE final.d ++
    wordBE final.e ++ wordBE final.f ++ wordBE final.g ++ wordBE final.hh

def doubleSha256 (msg : List Nat) : List Nat := sha256 (sha256 msg)

/-! ## Base58 (the mr-tron/base58 dependency: Bitcoin alphabet, leading zero
    bytes become leading '1' characters). -/

def base58Alphabet : List Char :=
  "123456789ABCDEFGHJKLMNPQRSTUVWXYZabcdefghijkmnopqrstuvwxyz".toList

def natToB58 : Nat → Nat → List Nat
  | 0, _ => []
  | _ + 1, 0 => []
  | fuel + 1, n => natToB58 fuel (n / 58) ++ [n % 58]

def base58EncodeBytes (bs : List Nat) : String :=
  let leading := (bs.takeWhile (fun b => b == 0)).length
  let digits := natToB58 (8 * bs.length + 1) (beBytesToNat bs)
  String.mk (List.replicate leading '1' ++ digits.map (fun d => base58Alphabet.getD d '1'))

/-- `checksum` (pkg/doge/spv.go): the first four bytes of the double SHA-256. -/
def checksum (input : List Nat) : List Nat := (doubleSha256 input).take 4

/-- `Base58CheckEncode` (pkg/doge/spv.go): prepend the version byte to the
input, append the four checksum bytes of version plus input, base58 encode. -/
def Base58CheckEncode (input : List Nat) (version : Nat) : String :=
  let b := version :: input
  base58EncodeBytes (b ++ checksum b)

/-- `ExtractAddresses` (pkg/doge/spv.go): for an exact 25-byte P2PKH pattern
build version 0x1E plus hash plus checksum and pass that through
`Base58CheckEncode` with version 0x1E; similarly P2SH with 0x16; anything
else gives no addresses. -/
def ExtractAddresses (script : List Nat) : List String :=
  if script.length < 23 then []
  else if script.length = 25 ∧ script.getD 0 0 = 0x76 ∧ script.getD 1 0 = 0xa9 ∧
      script.getD 2 0 = 0x14 ∧ script.getD 23 0 = 0x88 ∧ script.getD 24 0 = 0xac then
    let pubKeyHash := (script.drop 3).take 20
    let data := 0x1E :: pubKeyHash
    [Base58CheckEncode (data ++ checksum data) 0x1E]
  else if script.length = 23 ∧ script.getD 0 0 = 0xa9 ∧ script.getD 1 0 = 0x14 ∧
      script.getD 22 0 = 0x87 then
    let scriptHash := (script.drop 2).take 20
    let data := 0x16 :: scriptHash
    [Base58CheckEncode (data ++ checksum data) 0x16]
  else []

/-- The address the spec prescribes for a P2PKH script: Base58Check of the
20-byte hash with version byte 0x1E, the checksum being the first four bytes
of the double SHA-256 of version plus hash.  Stated from the spec's words for
comparison with the source's `ExtractAddresses`. -/
def specP2PKHAddress (pubKeyHash : List Nat) : String :=
  base58EncodeBytes ((0x1E :: pubKeyHash) ++ checksum (0x1E :: pubKeyHash))

/-! ## SPV header sync (pkg/doge/spv.go). -/

/-- `MaxHeadersResults` (pkg/doge/spv.go line 28). -/
def MaxHeadersResults : Nat := 1000

structure SpvBlockHeader where
  version : Nat
  prevBlock : List Nat
  merkleRoot : List Nat
  time : Nat
  bits : Nat
  nonce : Nat
  height : Nat
deriving DecidableEq

def le32Bytes (n : Nat) : List Nat :=
  [n % 256, n / 256 % 256, n / 65536 % 256, n / 16777216 % 256]

/-- The 80 serialized header bytes hashed by `BlockHeader.GetHash`. -/
def serializeHeader (h : SpvBlockHeader) : List Nat :=
  le32Bytes h.version ++ h.prevBlock ++ h.merkleRoot ++
    le32Bytes h.time ++ le32Bytes h.bits ++ le32Bytes h.nonce

/-- `BlockHeader.GetHash`: double SHA-256 of the serialized header. -/
def headerGetHash (h : SpvBlockHeader) : List Nat :=
  doubleSha256 (serializeHeader h)

/-- `CompactToBig` (pkg/doge/spv.go). -/
def CompactToBig (compact : Nat) : Int :=
  let mantissa := compact &&& 0x007fffff
  let exponent := compact / 2 ^ 24
  let bn : Int :=
    if exponent ≤ 3 then ((mantissa / 2 ^ (8 * (3 - exponent)) : Nat) : Int)
    else (mantissa : Int) * 2 ^ (8 * (exponent - 3))
  if compact &&& 0x00800000 ≠ 0 then -bn else bn

/-- The SPV session's ambient interface: the header database lookup used for
the previous-block check (the `BlockDatabase` interface), and the clock
`time.Now().Add(2 * time.Hour).Unix()` read during validation. -/
structure SpvEnv where
  getBlock : String → Bool
  maxTime : Int

/-- `validateHeader` (pkg/doge/spv.go): version at least 1, timestamp not
beyond two hours into the future, previous block known when the current
height is positive, and double SHA-256 of the header not above the target
decoded from bits. -/
def validateHeader (env : SpvEnv) (currentHeight : Nat) (h : SpvBlockHeader) :
    Except String Unit :=
  if h.version < 1 then .error "invalid version"
  else if env.maxTime < (h.time : Int) then .error "header timestamp too far in the future"
  else if currentHeight > 0 ∧ env.getBlock (HexEncode h.prevBlock) = false then
    .error "previous block not found"
  else if (beBytesToNat (headerGetHash h) : Int) > CompactToBig h.bits then
    .error "block hash does not meet target difficulty"
  else .ok ()

/-- The 80-byte header parse inside `handleHeadersMessage` (the Height field
is assigned afterwards, not parsed). -/
def parseSpvHeader (bytes : List Nat) : SpvBlockHeader :=
  { version := leBytesToNat (bytes.take 4),
    prevBlock := (bytes.drop 4).take 32,
    merkleRoot := (bytes.drop 36).take 32,
    time := leBytesToNat ((bytes.drop 68).take 4),
    bits := leBytesToNat ((bytes.drop 72).take 4),
    nonce := leBytesToNat ((bytes.drop 76).take 4),
    height := 0 }

/-- `ReadVarInt` (pkg/doge/spv.go): value only, the size is not returned. -/
def ReadVarInt (payload : List Nat) : Except String Nat :=
  match payload with
  | [] => .error "empty payload"
  | b0 :: _ =>
      if b0 < 0xfd then .ok b0
      else if b0 = 0xfd then
        if payload.length < 3 then .error "payload too short for uint16"
        else .ok (leBytesToNat ((payload.drop 1).take 2))
      else if b0 = 0xfe then
        if payload.length < 5 then .error "payload too short for uint32"
        else .ok (leBytesToNat ((payload.drop 1).take 4))
      else if b0 = 0xff then
        if payload.length < 9 then .error "payload too short for uint64"
        else .ok (leBytesToNat ((payload.drop 1).take 8))
      else .error "invalid varint format"

structure SpvState where
  currentHeight : Nat
  headerSyncComplete : Bool
  chainTip : Option SpvBlockHeader
deriving DecidableEq

structure HeadersOutcome where
  state : SpvState
  stored : List SpvBlockHeader
  requested : Option String
deriving DecidableEq

/-- The per-header loop of `handleHeadersMessage`: 80 bytes per header (the
code advances by exactly 80 from offset 1), bounds check, parse, validate
against the pre-increment height, increment the height, set the header's
Height field, store it in the database.  Returns the final height and the
stored headers in order. -/
def headersLoop (env : SpvEnv) : Nat → List Nat → Nat →
    Except String (Nat × List SpvBlockHeader)
  | 0, _, height => .ok (height, [])
  | n + 1, bytes, height =>
      if bytes.length < 80 then .error "partial headers message received"
      else
        let h := parseSpvHeader (bytes.take 80)
        match validateHeader env height h with
        | .error e => .error e
        | .ok _ =>
            match headersLoop env n (bytes.drop 80) (height + 1) with
            | .error e => .error e
            | .ok (hf, stored) => .ok (hf, { h with height := height + 1 } :: stored)

/-- `handleHeadersMessage` (pkg/doge/spv.go): read the header count with
`ReadVarInt`; count zero marks header sync complete; otherwise process the
headers from offset 1; afterwards, exactly when the count equals
`MaxHeadersResults`, send another getheaders for the chain tip's hash,
otherwise mark header sync complete. -/
def handleHeadersMessage (env : SpvEnv) (st : SpvState) (payload : List Nat) :
    Except String HeadersOutcome :=
  match ReadVarInt payload with
  | .error e => .error e
  | .ok count =>
      if count = 0 then
        .ok { state := { st with headerSyncComplete := true },
              stored := [], requested := none }
      else
        match headersLoop env count (payload.drop 1) st.currentHeight with
        | .error e => .error e
        | .ok (h', stored) =>
            let tip := stored.getLast?.orElse (fun _ => st.chainTip)
            if count = MaxHeadersResults then
              let st' : SpvState := { st with currentHeight := h', chainTip := tip }
              .ok { state := st', stored := stored,
                    requested := tip.map (fun t => HexEncode (headerGetHash t)) }
            else
              let st' : SpvState :=
                { st with currentHeight := h', chainTip := tip, headerSyncComplete := true }
              .ok { state := st', stored := stored, requested := none }

/-! ## Invariants and concrete instances referenced by the theorems. -/

/-- The §8 P2 confirmation formula for one row against cursor height `h`:
rows with non-null block_height carry min(50, h - block_height + 1). -/
def rowConfFormula (h : Int) (r : Transaction) : Prop :=
  ∀ b, r.blockHeight = some b → r.confirmations = min50 (h - b + 1)

/-- The §8 P2 status equivalence for one row: for non-null block_height,
status is confirmed exactly when confirmations reach the requirement. -/
def rowStatusIff (req : Int) (r : Transaction) : Prop :=
  r.blockHeight ≠ none → (r.status = "confirmed" ↔ req ≤ r.confirmations)

/-- Frame invariant of one mempool tick relative to the tick's start state:
only pending rows with fresh (address_id, tx_id) keys are appended to the
transaction table, everything else is untouched. -/
def mempoolFrameInv (st0 s : DBState) : Prop :=
  (∃ new, s.txRows = st0.txRows ++ new ∧
    ∀ r ∈ new, r.status = "pending" ∧ r.confirmations = 0 ∧ r.blockHash = none ∧
      r.blockHeight = none ∧
      ∀ t ∈ st0.txRows, ¬(t.addressId = r.addressId ∧ t.txId = r.txId)) ∧
  s.addresses = st0.addresses ∧ s.utxos = st0.utxos ∧
  s.cursorHeight = st0.cursorHeight ∧ s.cursorHash = st0.cursorHash ∧
  s.nextAddressId = st0.nextAddressId

/-- The failure pattern in which exactly the transaction INSERT statements
error (for instance on a constraint violation) while every other statement
succeeds. -/
def failTxInsert : Stmt → Bool
  | .addTx _ => true
  | _ => false

/-- A block with a single one-output transaction and no inputs. -/
def singleOutputBlock (bh : String) (h : Int) (txid : String) (v : Int)
    (s : List Nat) : ChainBlock :=
  { hash := bh, height := h,
    tx := [{ txID := txid, vin := [], vout := [{ value := v, script := s }] }] }

/-- The "Bearer " prefix of a well-formed Authorization header. -/
def bearerSp : List Char := "Bearer ".toList

/-- A 25-byte P2PKH script paying the all-zero 20-byte hash. -/
def p2pkhScript0 : List Nat := [0x76, 0xa9, 0x14] ++ List.replicate 20 0 ++ [0x88, 0xac]

/-- A tracked address used by concrete runs. -/
def addrD1 : TrackedAddress :=
  { id := 1, address := "D1", requiredConfirmations := 1, balance := 0 }

/-- A chain environment classifying the one-byte script [0] as a P2PKH
payment to D1, with no resolvable previous transactions and block time 42. -/
def envSimple : ChainEnv :=
  { classify := fun s => if s = [0] then ("p2pkh", "D1") else ("", ""),
    prevTxOuts := fun _ => none,
    headerTime := fun _ => some 42 }

/-- The empty store tracking only D1. -/
def stC2 : DBState :=
  { addresses := [addrD1], txRows := [], utxos := [],
    cursorHeight := 0, cursorHash := "", nextAddressId := 2 }

/-- Block b1 at height 1 paying 5 DOGE to D1 in transaction t1. -/
def blkC2 : ChainBlock := singleOutputBlock "b1" 1 "t1" 500000000 [0]

/-- A pending mempool row for t1 as the mempool tracker inserts it. -/
def pendingRowT1 : Transaction := insertedTxRow 1 "t1" none none 1 true 0

/-- The store tracking D1 with the pending mempool row for t1. -/
def stC1 : DBState :=
  { addresses := [addrD1], txRows := [pendingRowT1], utxos := [],
    cursorHeight := 0, cursorHash := "", nextAddressId := 2 }

/-- Block h5 at height 5 confirming t1 with 1 DOGE to D1. -/
def blkC1 : ChainBlock := singleOutputBlock "h5" 5 "t1" 100000000 [0]

/-- C3 instance: one confirmed incoming row in block "b1" at height 100 with
its unspent output, cursor at (100, "b1"). -/
def stC3 : DBState :=
  { addresses := [addrD1],
    txRows := [insertedTxRow 1 "t1" (some "b1") (some 100) 1 true 1],
    utxos := [{ addressId := 1, txId := "t1", vout := 0, amount := 1, script := "" }],
    cursorHeight := 100, cursorHash := "b1", nextAddressId := 2 }

/-- C3 instance: undo block "b1", expecting to resume from (99, "aa99"). -/
def undoC3 : UndoForkBlocks :=
  { blockHashes := ["b1"], lastValidHeight := 99, resumeFromBlock := "aa99" }

/-- C5 instance: an 80-byte header with version 0x20000000. -/
def hdrC5 : List Nat := [0, 0, 0, 0x20] ++ List.replicate 76 0

/-- C5 instance: a minimal 60-byte coinbase transaction (one null input, one
empty output). -/
def coinbaseC5 : List Nat :=
  [1, 0, 0, 0] ++ [1] ++
  (List.replicate 32 0) ++ [255, 255, 255, 255] ++ [0] ++ [255, 255, 255, 255] ++
  [1] ++ (List.replicate 8 0) ++ [0] ++ [0, 0, 0, 0]

/-- C5 instance: tx count 1, the coinbase, then two AuxPoW junk bytes. -/
def tailC5 : List Nat := [1] ++ coinbaseC5 ++ [0xAB, 0xCD]

/-- The decoded form of `coinbaseC5`. -/
def decTxC5 : DecTx :=
  { version := 1,
    vin := [{ prevHash := List.replicate 32 0, prevIndex := 4294967295,
              script := [], sequence := 4294967295 }],
    vout := [{ value := 0, script := [] }],
    lockTime := 0 }

/-- Equality on `Except` results is decidable (used to evaluate concrete
SPV runs). -/
def exceptDecEq {ε α : Type} [DecidableEq ε] [DecidableEq α] :
    (a b : Except ε α) → Decidable (a = b)
  | .error x, .error y =>
      if h : x = y then isTrue (by rw [h]) else isFalse (fun he => h (Except.error.inj he))
  | .error _, .ok _ => isFalse (fun he => Except.noConfusion he)
  | .ok _, .error _ => isFalse (fun he => Except.noConfusion he)
  | .ok x, .ok y =>
      if h : x = y then isTrue (by rw [h]) else isFalse (fun he => h (Except.ok.inj he))

instance {ε α : Type} [DecidableEq ε] [DecidableEq α] : DecidableEq (Except ε α) :=
  exceptDecEq

/-- C7 instance: a header database that knows every block, and a far-future
clock bound, so that validation depends only on the header fields. -/
def envC7 : SpvEnv := { getBlock := fun _ => true, maxTime := 1099511627776 }

/-- C7 instance: a fresh sync session. -/
def stC7 : SpvState := { currentHeight := 0, headerSyncComplete := false, chainTip := none }

/-- C7 instance: one 80-byte header whose bytes 70..73 decode (at the
stride the code actually uses) to the easiest-possible compact target
0xFF7FFFFF, so that every 80-byte window over the stream validates. -/
def hdrC7 : List Nat :=
  [2, 0, 0, 0] ++ List.replicate 66 0 ++ [255, 255, 127, 255] ++ List.replicate 6 0

/-- C7 instance: a headers message announcing exactly 2000 headers (varint
0xfd d0 07) followed by 2000 serialized headers. -/
def payloadC7 : List Nat :=
  0xfd :: 0xd0 :: 0x07 :: (List.replicate 2000 hdrC7).flatten

/-- The outcome `handleHeadersMessage` builds when the count is positive and
different from `MaxHeadersResults`. -/
def hhNeOutcome (st : SpvState) (h2 : Nat) (stored : List SpvBlockHeader) : HeadersOutcome :=
  let tip := stored.getLast?.orElse (fun _ => st.chainTip)
  let st2 : SpvState := { st with currentHeight := h2, chainTip := tip, headerSyncComplete := true }
  { state := st2, stored := stored, requested := none }

/-- The outcome of an empty (count-zero) headers message. -/
def r0C7 : HeadersOutcome :=
  { state := { stC7 with headerSyncComplete := true }, stored := [], requested := none }

/-- Equality of every store component other than the transaction table. -/
def eqExceptTx (s1 s2 : DBState) : Prop :=
  s1.addresses = s2.addresses ∧ s1.utxos = s2.utxos ∧
  s1.cursorHeight = s2.cursorHeight ∧ s1.cursorHash = s2.cursorHash ∧
  s1.nextAddressId = s2.nextAddressId

/-- Invariant carried through a block connect at the block's height for the
block's txids: every row of a tracked address satisfies the confirmation
formula; its status satisfies the claimed equivalence unless the row was
written by this block and left pending; and rows of this block's transactions
carry either a null or the current block height. -/
def rowsInv (H : Int) (txids : List String) (addrs : List TrackedAddress)
    (rows : List Transaction) : Prop :=
  ∀ r ∈ rows, ∀ a ∈ addrs, r.addressId = a.id →
    (rowConfFormula H r ∧
      (rowStatusIff a.requiredConfirmations r ∨
        (r.status = "pending" ∧ r.txId ∈ txids))) ∧
    (r.txId ∈ txids → r.blockHeight = none ∨ r.blockHeight = some H)

/-- The same invariant read off a database state. -/
def connectRowsInv (H : Int) (txids : List String) (addrs : List TrackedAddress)
    (s : DBState) : Prop :=
  rowsInv H txids addrs s.txRows

/-! ## Theorems. -/

theorem sha256_empty_vector :
    HexEncode (sha256 []) =
      "e3b0c44298fc1c149afbf4c8996fb92427ae41e4649b934ca495991b7852b855" := by
  decide

theorem sha256_abc_vector :
    HexEncode (sha256 [0x61, 0x62, 0x63]) =
      "ba7816bf8f01cfea414140de5dae2223b00361a396177a9cb410ff61f20015ad" := by
  decide

/-- Fold preservation of a predicate. -/
theorem foldl_preserve {σ α : Type} (P : σ → Prop) (f : σ → α → σ)
    (hstep : ∀ s x, P s → P (f s x)) (l : List α) (s : σ) (hs : P s) :
    P (l.foldl f s) := by
  induction l generalizing s with
  | nil => exact hs
  | cons x xs ih => exact ih _ (hstep _ _ hs)

/-- C6: on the all-zero 20-byte hash P2PKH script, `ExtractAddresses` returns
the checksummed payload passed through `Base58CheckEncode` a second time —
the version byte and checksum are applied twice — and the resulting address
differs from the Base58Check address of the hash that the spec prescribes. -/
theorem C6_extract_addresses_double_encode :
    ExtractAddresses p2pkhScript0 =
      [Base58CheckEncode ((0x1E :: List.replicate 20 0) ++
        checksum (0x1E :: List.replicate 20 0)) 0x1E] ∧
    ExtractAddresses p2pkhScript0 ≠ [specP2PKHAddress (List.replicate 20 0)] := by
  constructor
  · rfl
  · decide

/-- goSplitAux never returns the empty list. -/
theorem goSplitAux_ne_nil (sep : Char) (cs acc : List Char) :
    goSplitAux sep cs acc ≠ [] := by
  induction cs generalizing acc with
  | nil => simp [goSplitAux]
  | cons c cs ih =>
      simp only [goSplitAux]
      split
      · simp
      · exact ih _

/-- A singleton split means no separator occurred. -/
theorem goSplitAux_single (sep : Char) (cs : List Char) :
    ∀ acc y, goSplitAux sep cs acc = [y] → y = acc.reverse ++ cs ∧ sep ∉ cs := by
  induction cs with
  | nil =>
      intro acc y hy
      simp [goSplitAux] at hy
      simp [hy]
  | cons c cs ih =>
      intro acc y hy
      simp only [goSplitAux] at hy
      by_cases hc : c = sep
      · rw [if_pos hc] at hy
        have htl := congrArg List.tail hy
        simp only [List.tail_cons] at htl
        exact absurd htl (goSplitAux_ne_nil sep cs [])
      · rw [if_neg hc] at hy
        obtain ⟨h1, h2⟩ := ih _ _ hy
        refine ⟨by simpa using h1, ?_⟩
        intro hm
        rcases List.mem_cons.1 hm with h | h
        · exact hc h.symm
        · exact h2 h

/-- A two-element split decomposes the input around a single separator. -/
theorem goSplitAux_pair (sep : Char) (cs : List Char) :
    ∀ acc x y, goSplitAux sep cs acc = [x, y] → sep ∉ acc →
      acc.reverse ++ cs = x ++ sep :: y ∧ sep ∉ x ∧ sep ∉ y := by
  induction cs with
  | nil =>
      intro acc x y hy _
      simp [goSplitAux] at hy
  | cons c cs ih =>
      intro acc x y hy hacc
      simp only [goSplitAux] at hy
      by_cases hc : c = sep
      · rw [if_pos hc] at hy
        injection hy with hx htl
        obtain ⟨hy1, hy2⟩ := goSplitAux_single sep cs [] y htl
        simp only [List.reverse_nil, List.nil_append] at hy1
        subst hy1
        refine ⟨by rw [← hx, hc], ?_, hy2⟩
        intro hm
        exact hacc (List.mem_reverse.1 (hx ▸ hm))
      · rw [if_neg hc] at hy
        have hacc' : sep ∉ c :: acc := by
          intro hm
          rcases List.mem_cons.1 hm with h | h
          · exact hc h.symm
          · exact hacc h
        obtain ⟨h1, h2, h3⟩ := ih (c :: acc) x y hy hacc'
        refine ⟨?_, h2, h3⟩
        simpa using h1

/-- C8: a request whose Authorization header is missing, not of the two-part
form Bearer token, or carrying a token other than the configured one, is
answered 401 by `authMiddleware` and the wrapped handler is not invoked (the
result is the same 401 for every possible handler). -/
theorem C8_auth_middleware_rejects {α : Type} (apiToken : List Char)
    (next : Unit → α) (header : List Char)
    (hbad : header = [] ∨ (¬ ∃ t, header = bearerSp ++ t) ∨
      (∀ t, header = bearerSp ++ t → t ≠ apiToken)) :
    authMiddleware apiToken next header = .error 401 := by
  by_cases h0 : header = []
  · simp [authMiddleware, h0]
  · unfold authMiddleware
    rw [if_neg h0]
    by_cases hcond : (goSplit ' ' header).length ≠ 2 ∨
        (goSplit ' ' header).getD 0 [] ≠ "Bearer".toList ∨
        (goSplit ' ' header).getD 1 [] ≠ apiToken
    · simp only [if_pos hcond]
    · exfalso
      push_neg at hcond
      obtain ⟨hlen, hp0, hp1⟩ := hcond
      obtain ⟨p0, p1, hparts⟩ : ∃ p0 p1, goSplit ' ' header = [p0, p1] := by
        rcases hsplit : goSplit ' ' header with _ | ⟨a, _ | ⟨b, _ | _⟩⟩ <;>
          simp [hsplit] at hlen
        exact ⟨a, b, rfl⟩
      rw [hparts] at hp0 hp1
      simp only [List.getD_cons_zero, List.getD_cons_succ] at hp0 hp1
      obtain ⟨hdec, hsep0, hsep1⟩ :=
        goSplitAux_pair ' ' header [] p0 p1 hparts (by simp)
      simp only [List.reverse_nil, List.nil_append] at hdec
      have hheader : header = bearerSp ++ apiToken := by
        rw [hdec, hp0, hp1]
        rfl
      rcases hbad with h | h | h
      · exact h0 h
      · exact h ⟨apiToken, hheader⟩
      · exact h apiToken hheader rfl

/-- C8 witness: the middleware with token "right", on the header
"Bearer wrong", returns 401 for a concrete handler. -/
theorem C8_auth_middleware_rejects_witness :
    authMiddleware "right".toList (fun _ => (0 : Nat)) "Bearer wrong".toList =
      .error 401 := by
  refine C8_auth_middleware_rejects "right".toList _ _ (Or.inr (Or.inr ?_))
  intro t ht
  have : t = "wrong".toList := by
    have := congrArg (fun l => List.drop 7 l) ht
    simpa [bearerSp] using this.symm
  simp [this]

/-- find? over a map that preserves the searched field. -/
theorem find?_map_addr (addr : String) (g : TrackedAddress → TrackedAddress)
    (hg : ∀ b, (g b).address = b.address) (l : List TrackedAddress) :
    (l.map g).find? (fun a => a.address == addr) =
      (l.find? (fun a => a.address == addr)).map g := by
  induction l with
  | nil => simp
  | cons b bs ih =>
      simp only [List.map_cons, List.find?_cons, hg b]
      cases hb : (b.address == addr) with
      | true => simp
      | false => simpa using ih

/-- C9: an authorized POST /api/track whose body carries a
required_confirmations below 1 stores exactly 1 for the address and still
succeeds with the address's details in the response. -/
theorem C9_required_confirmations_coerced (st : DBState) (req : TrackRequest)
    (hreq : req.requiredConfirmations < 1) :
    (((handleTrackAddress "POST" (some req) st).1.addresses.find?
        (fun a => a.address == req.address)).map
          (fun a => a.requiredConfirmations) = some 1) ∧
    (∃ a txs us, (handleTrackAddress "POST" (some req) st).2 = .ok a txs us ∧
      a.requiredConfirmations = 1 ∧ a.address = req.address) := by
  have hm : ¬("POST" ≠ "POST") := by simp
  unfold handleTrackAddress
  rw [if_neg hm]
  simp only [if_pos hreq]
  unfold GetOrCreateAddressWithDetails
  cases hfind : st.addresses.find? (fun a => a.address == req.address) with
  | some a =>
      have hpred := List.find?_some hfind
      have haddr : a.address = req.address := by simpa using hpred
      constructor
      · simp only []
        rw [find?_map_addr req.address _ (fun b => by
          by_cases hb : (b.address == req.address) = true <;> simp [hb]) st.addresses]
        rw [hfind]
        simp [hpred, haddr]
      · exact ⟨_, _, _, rfl, rfl, haddr⟩
  | none =>
      constructor
      · simp only []
        rw [List.find?_append, hfind]
        simp [List.find?_cons]
      · exact ⟨_, _, _, rfl, rfl, rfl⟩

/-- C9 witness: posting address D1 with required_confirmations 0 against the
empty store yields a 200 with the address stored at exactly 1. -/
theorem C9_required_confirmations_coerced_witness :
    (0 : Int) < 1 ∧
    ((((handleTrackAddress "POST" (some ⟨"D1", 0⟩)
        ⟨[], [], [], 0, "", 1⟩).1.addresses.find?
          (fun a => a.address == "D1")).map
            (fun a => a.requiredConfirmations) = some 1) ∧
      (∃ a txs us, (handleTrackAddress "POST" (some ⟨"D1", 0⟩)
          ⟨[], [], [], 0, "", 1⟩).2 = .ok a txs us ∧
        a.requiredConfirmations = 1 ∧ a.address = "D1")) :=
  ⟨by decide, C9_required_confirmations_coerced ⟨[], [], [], 0, "", 1⟩ ⟨"D1", 0⟩ (by decide)⟩

/-- C10: an authorized GET /api/address for a never-registered address does
not return a not-found: it inserts a fresh tracked_addresses row with balance
0 and answers 200 with that row and empty transaction and unspent-output
lists — the query endpoint is a registering write. -/
theorem C10_get_unknown_address_registers (st : DBState) (address : String)
    (hne : address ≠ "")
    (habs : st.addresses.find? (fun a => a.address == address) = none)
    (hfreshT : ∀ t ∈ st.txRows, t.addressId ≠ st.nextAddressId)
    (hfreshU : ∀ u ∈ st.utxos, u.addressId ≠ st.nextAddressId) :
    ∃ aRec : TrackedAddress,
      handleGetAddress "GET" address st =
        ({ st with addresses := st.addresses ++ [aRec],
                   nextAddressId := st.nextAddressId + 1 }, .ok aRec [] []) ∧
      aRec.address = address ∧ aRec.balance = 0 ∧ aRec.id = st.nextAddressId := by
  refine ⟨⟨st.nextAddressId, address, 1, 0⟩, ?_, rfl, rfl, rfl⟩
  have hm : ¬("GET" ≠ "GET") := by simp
  unfold handleGetAddress GetAddressDetails GetOrCreateAddress
  rw [if_neg hm, if_neg hne, habs]
  simp only []
  have hT : st.txRows.filter (fun t => t.addressId == st.nextAddressId) = [] := by
    rw [List.filter_eq_nil_iff]
    intro t ht
    simpa using hfreshT t ht
  have hU : st.utxos.filter (fun u => u.addressId == st.nextAddressId) = [] := by
    rw [List.filter_eq_nil_iff]
    intro u hu
    simpa using hfreshU u hu
  simp [hT, hU]

/-- C10 witness: querying D9 against a store that does not know it registers
the address with balance 0 and returns empty histories. -/
theorem C10_get_unknown_address_registers_witness :
    ∃ aRec : TrackedAddress,
      handleGetAddress "GET" "D9" ⟨[], [], [], 7, "tip", 3⟩ =
        ({ addresses := [aRec], txRows := [], utxos := [],
           cursorHeight := 7, cursorHash := "tip", nextAddressId := 4 }, .ok aRec [] []) ∧
      aRec.address = "D9" ∧ aRec.balance = 0 ∧ aRec.id = 3 :=
  C10_get_unknown_address_registers ⟨[], [], [], 7, "tip", 3⟩ "D9"
    (by decide) (by decide) (by simp) (by simp)

/-- Inserting a fresh-key pending row through `AddTransaction` preserves the
mempool frame invariant. -/
theorem mempoolFrameInv_insert (st0 s : DBState) (r : Transaction)
    (hinv : mempoolFrameInv st0 s)
    (hbh : r.blockHash = none) (hbt : r.blockHeight = none)
    (hcf : r.confirmations = 0)
    (habs : s.txRows.any (txKeyEq r.addressId r.txId) = false) :
    mempoolFrameInv st0 { s with txRows := AddTransaction r s.txRows } := by
  obtain ⟨⟨new, hrows, hshape⟩, haddr, hutxo, hch, hcs, hn⟩ := hinv
  refine ⟨⟨new ++ [insertedTxRow r.addressId r.txId r.blockHash r.blockHeight
    r.amount r.isIncoming r.confirmations], ?_, ?_⟩, haddr, hutxo, hch, hcs, hn⟩
  · show AddTransaction r s.txRows = st0.txRows ++ _
    rw [AddTransaction, habs]
    simp only [Bool.false_eq_true, if_false, hrows, List.append_assoc]
  · intro x hx
    rcases List.mem_append.1 hx with hxn | hxi
    · exact hshape x hxn
    · have hxr : x = insertedTxRow r.addressId r.txId r.blockHash r.blockHeight
          r.amount r.isIncoming r.confirmations := by simpa using hxi
      subst hxr
      refine ⟨rfl, by simp [insertedTxRow, hcf], by simp [insertedTxRow, hbh],
        by simp [insertedTxRow, hbt], ?_⟩
      intro t ht hcontra
      have htm : t ∈ s.txRows := by
        rw [hrows]; exact List.mem_append_left _ ht
      have hkey : txKeyEq r.addressId r.txId t = false := by
        rcases List.any_eq_false.1 habs t htm |> fun hz => hz with hz
        simpa using hz
      have : ¬(t.addressId = r.addressId ∧ t.txId = r.txId) := by
        simpa [txKeyEq] using hkey
      exact this ⟨by simpa [insertedTxRow] using hcontra.1,
        by simpa [insertedTxRow] using hcontra.2⟩

/-- The mempool output path preserves the frame invariant. -/
theorem memOut_frameInv (env : ChainEnv) (tracked : List TrackedAddress)
    (txid : String) (time : Int) (tx : BlockTx) (st0 : DBState)
    (s : DBState) (vout : BlockTxOut) (h : mempoolFrameInv st0 s) :
    mempoolFrameInv st0 (memOut env tracked txid time tx s vout) := by
  simp only [memOut]
  split
  · exact h
  · split
    · exact h
    · split
      · exact h
      · rename_i a _ hany
        exact mempoolFrameInv_insert st0 s _ h rfl rfl rfl
          (by simpa using hany)

/-- The mempool input path preserves the frame invariant. -/
theorem memIn_frameInv (env : ChainEnv) (tracked : List TrackedAddress)
    (txid : String) (time : Int) (tx : BlockTx) (st0 : DBState)
    (s : DBState) (vin : BlockTxIn) (h : mempoolFrameInv st0 s) :
    mempoolFrameInv st0 (memIn env tracked txid time tx s vin) := by
  simp only [memIn]
  split
  · exact h
  · split
    · exact h
    · split
      · exact h
      · split
        · exact h
        · split
          · exact h
          · split
            · exact h
            · rename_i hany
              exact mempoolFrameInv_insert st0 s _ h rfl rfl rfl
                (by simpa using hany)

/-- C4: one mempool tick only appends transaction rows, each inserted row is
pending with zero confirmations and null block fields and has an
(address_id, tx_id) key absent from the pre-tick table, and every pre-tick
row — and every other table and the cursor — is left entirely unchanged. -/
theorem C4_mempool_pending_insert_frame (env : ChainEnv) (entries : List MemEntry)
    (st : DBState) :
    ∃ new, (checkMempool env entries st).txRows = st.txRows ++ new ∧
      (∀ r ∈ new, r.status = "pending" ∧ r.confirmations = 0 ∧ r.blockHash = none ∧
        r.blockHeight = none ∧
        ∀ t ∈ st.txRows, ¬(t.addressId = r.addressId ∧ t.txId = r.txId)) ∧
      (checkMempool env entries st).addresses = st.addresses ∧
      (checkMempool env entries st).utxos = st.utxos ∧
      (checkMempool env entries st).cursorHeight = st.cursorHeight ∧
      (checkMempool env entries st).cursorHash = st.cursorHash := by
  have hinv : mempoolFrameInv st (checkMempool env entries st) := by
    simp only [checkMempool]
    refine foldl_preserve (mempoolFrameInv st) _ ?_ entries st
      ⟨⟨[], by simp, by simp⟩, rfl, rfl, rfl, rfl, rfl⟩
    intro s e hs
    refine foldl_preserve (mempoolFrameInv st) _ ?_ e.tx.vin _
      (foldl_preserve (mempoolFrameInv st) _ ?_ e.tx.vout s hs)
    · intro s' x hs'
      exact memIn_frameInv env st.addresses e.txid e.time e.tx st s' x hs'
    · intro s' x hs'
      exact memOut_frameInv env st.addresses e.txid e.time e.tx st s' x hs'
  obtain ⟨⟨new, h1, h2⟩, h3, h4, h5, h6, _⟩ := hinv
  exact ⟨new, h1, h2, h3, h4, h5, h6⟩

theorem refreshRow_addressId (h q : Int) (r : Transaction) :
    (refreshRow h q r).addressId = r.addressId := by
  unfold refreshRow
  cases r.blockHeight <;> rfl

theorem refreshRow_txId (h q : Int) (r : Transaction) :
    (refreshRow h q r).txId = r.txId := by
  unfold refreshRow
  cases r.blockHeight <;> rfl

/-- Key-preserving row maps do not change key-existence checks. -/
theorem any_txKeyEq_map_keyfix (aid : Int) (txid : String)
    (f : Transaction → Transaction)
    (hf : ∀ t, (f t).addressId = t.addressId ∧ (f t).txId = t.txId)
    (rows : List Transaction) :
    (rows.map f).any (txKeyEq aid txid) = rows.any (txKeyEq aid txid) := by
  induction rows with
  | nil => rfl
  | cons t ts ih =>
      simp only [List.map_cons, List.any_cons, ih, txKeyEq, (hf t).1, (hf t).2]


theorem eqExceptTx_refl (s : DBState) : eqExceptTx s s := ⟨rfl, rfl, rfl, rfl, rfl⟩

theorem eqExceptTx_symm {s1 s2 : DBState} (h : eqExceptTx s1 s2) : eqExceptTx s2 s1 :=
  ⟨h.1.symm, h.2.1.symm, h.2.2.1.symm, h.2.2.2.1.symm, h.2.2.2.2.symm⟩

theorem eqExceptTx_trans {s1 s2 s3 : DBState} (h : eqExceptTx s1 s2)
    (h' : eqExceptTx s2 s3) : eqExceptTx s1 s3 :=
  ⟨h.1.trans h'.1, h.2.1.trans h'.2.1, h.2.2.1.trans h'.2.2.1,
   h.2.2.2.1.trans h'.2.2.2.1, h.2.2.2.2.trans h'.2.2.2.2⟩

/-- Statements that only touch the transaction table leave the rest of the
store intact under any failure pattern. -/
theorem exec_txOnly_eqExceptTx (F : Stmt → Bool) (st : DBState) :
    (∀ h aid req, eqExceptTx (exec F (.bulkRefresh h aid req) st) st) ∧
    (∀ r, eqExceptTx (exec F (.addTx r) st) st) ∧
    (∀ aid txId bh h fee ts req sndr rcvr,
      eqExceptTx (exec F (.updateTxBlock aid txId bh h fee ts req sndr rcvr) st) st) ∧
    (∀ aid txId, eqExceptTx (exec F (.delTx aid txId) st) st) := by
  refine ⟨?_, ?_, ?_, ?_⟩ <;> intros <;> unfold exec <;> split <;>
    exact eqExceptTx_refl st

/-- The mempool-visible statements that the failing-insert run and the clean
run both execute produce related states from related states. -/
theorem exec_shared_eqExceptTx {s1 s2 : DBState} (h : eqExceptTx s1 s2) :
    (∀ u, eqExceptTx (exec failTxInsert (.addUnspent u) s1) (exec noFail (.addUnspent u) s2)) ∧
    (∀ aid txId vout, eqExceptTx (exec failTxInsert (.removeUnspent aid txId vout) s1)
      (exec noFail (.removeUnspent aid txId vout) s2)) ∧
    (∀ aid b, eqExceptTx (exec failTxInsert (.updBalance aid b) s1)
      (exec noFail (.updBalance aid b) s2)) ∧
    (∀ hh hs, eqExceptTx (exec failTxInsert (.setCursor hh hs) s1)
      (exec noFail (.setCursor hh hs) s2)) := by
  obtain ⟨h1, h2, h3, h4, h5⟩ := h
  refine ⟨?_, ?_, ?_, ?_⟩ <;> intros <;>
    simp [exec, failTxInsert, noFail, stmtEffect, eqExceptTx, h1, h2, h3, h4, h5]

/-- The incoming-output path of a block connect: the failing-insert run and
the clean run agree outside the transaction table. -/
theorem processOutput_eqExceptTx (env : ChainEnv) (blk : ChainBlock)
    (tracked : List TrackedAddress) (fee : Amount) (ts : Int) (tx : BlockTx)
    {s1 s2 : DBState} (iv : Nat × BlockTxOut) (h : eqExceptTx s1 s2) :
    eqExceptTx (processOutput env failTxInsert blk tracked fee ts tx s1 iv)
      (processOutput env noFail blk tracked fee ts tx s2 iv) := by
  simp only [processOutput]
  split
  · exact h
  · split
    · exact h
    · rename_i a _
      have hu := (exec_shared_eqExceptTx h).1
        ⟨a.id, tx.txID, iv.1, (iv.2.value : Amount) / 100000000, HexEncode iv.2.script⟩
      set t1 := exec failTxInsert (.addUnspent _) s1 with ht1
      set t2 := exec noFail (.addUnspent _) s2 with ht2
      by_cases hb1 : t1.txRows.any (txKeyEq a.id tx.txID) = true
      · rw [if_pos hb1]
        by_cases hb2 : t2.txRows.any (txKeyEq a.id tx.txID) = true
        · rw [if_pos hb2]
          exact eqExceptTx_trans ((exec_txOnly_eqExceptTx _ _).2.2.1 _ _ _ _ _ _ _ _ _)
            (eqExceptTx_trans hu (eqExceptTx_symm ((exec_txOnly_eqExceptTx _ _).2.2.1 _ _ _ _ _ _ _ _ _)))
        · rw [if_neg hb2]
          exact eqExceptTx_trans ((exec_txOnly_eqExceptTx _ _).2.2.1 _ _ _ _ _ _ _ _ _)
            (eqExceptTx_trans hu (eqExceptTx_symm ((exec_txOnly_eqExceptTx _ _).2.1 _)))
      · rw [if_neg hb1]
        by_cases hb2 : t2.txRows.any (txKeyEq a.id tx.txID) = true
        · rw [if_pos hb2]
          exact eqExceptTx_trans ((exec_txOnly_eqExceptTx _ _).2.1 _)
            (eqExceptTx_trans hu (eqExceptTx_symm ((exec_txOnly_eqExceptTx _ _).2.2.1 _ _ _ _ _ _ _ _ _)))
        · rw [if_neg hb2]
          exact eqExceptTx_trans ((exec_txOnly_eqExceptTx _ _).2.1 _)
            (eqExceptTx_trans hu (eqExceptTx_symm ((exec_txOnly_eqExceptTx _ _).2.1 _)))

/-- The outgoing-input path of a block connect: the failing-insert run and
the clean run agree outside the transaction table. -/
theorem processInput_eqExceptTx (env : ChainEnv) (blk : ChainBlock)
    (tracked : List TrackedAddress) (fee : Amount) (ts : Int) (tx : BlockTx)
    {s1 s2 : DBState} (vin : BlockTxIn) (h : eqExceptTx s1 s2) :
    eqExceptTx (processInput env failTxInsert blk tracked fee ts tx s1 vin)
      (processInput env noFail blk tracked fee ts tx s2 vin) := by
  simp only [processInput]
  split
  · exact h
  · split
    · exact h
    · split
      · exact h
      · split
        · exact h
        · split
          · exact h
          · rename_i a _
            have hu := (exec_shared_eqExceptTx h).2.1 a.id
              (HexEncodeReversed vin.txid) vin.vout
            set t1 := exec failTxInsert (.removeUnspent _ _ _) s1 with ht1
            set t2 := exec noFail (.removeUnspent _ _ _) s2 with ht2
            by_cases hb1 : t1.txRows.any (txKeyEq a.id tx.txID) = true
            · rw [if_pos hb1]
              by_cases hb2 : t2.txRows.any (txKeyEq a.id tx.txID) = true
              · rw [if_pos hb2]
                exact eqExceptTx_trans ((exec_txOnly_eqExceptTx _ _).2.2.1 _ _ _ _ _ _ _ _ _)
                  (eqExceptTx_trans hu (eqExceptTx_symm ((exec_txOnly_eqExceptTx _ _).2.2.1 _ _ _ _ _ _ _ _ _)))
              · rw [if_neg hb2]
                exact eqExceptTx_trans ((exec_txOnly_eqExceptTx _ _).2.2.1 _ _ _ _ _ _ _ _ _)
                  (eqExceptTx_trans hu (eqExceptTx_symm ((exec_txOnly_eqExceptTx _ _).2.1 _)))
            · rw [if_neg hb1]
              by_cases hb2 : t2.txRows.any (txKeyEq a.id tx.txID) = true
              · rw [if_pos hb2]
                exact eqExceptTx_trans ((exec_txOnly_eqExceptTx _ _).2.1 _)
                  (eqExceptTx_trans hu (eqExceptTx_symm ((exec_txOnly_eqExceptTx _ _).2.2.1 _ _ _ _ _ _ _ _ _)))
              · rw [if_neg hb2]
                exact eqExceptTx_trans ((exec_txOnly_eqExceptTx _ _).2.1 _)
                  (eqExceptTx_trans hu (eqExceptTx_symm ((exec_txOnly_eqExceptTx _ _).2.1 _)))

/-- Paired fold over related states. -/
theorem foldl_rel {σ α : Type} (R : σ → σ → Prop) (f g : σ → α → σ)
    (hstep : ∀ s1 s2 x, R s1 s2 → R (f s1 x) (g s2 x)) :
    ∀ (l : List α) s1 s2, R s1 s2 → R (l.foldl f s1) (l.foldl g s2) := by
  intro l
  induction l with
  | nil => exact fun s1 s2 h => h
  | cons x xs ih => exact fun s1 s2 h => ih _ _ (hstep _ _ _ h)

/-- One balance-sweep step relates the two runs. -/
theorem sweepStep_eqExceptTx (a : TrackedAddress) {s1 s2 : DBState}
    (h : eqExceptTx s1 s2) :
    eqExceptTx
      (exec failTxInsert
        (.updBalance a.id (sumAmounts (GetAddressDetails s1 a.address).2.2.2))
        (GetAddressDetails s1 a.address).1)
      (exec noFail
        (.updBalance a.id (sumAmounts (GetAddressDetails s2 a.address).2.2.2))
        (GetAddressDetails s2 a.address).1) := by
  obtain ⟨h1, h2, h3, h4, h5⟩ := h
  unfold GetAddressDetails GetOrCreateAddress
  rw [h1]
  cases hf : s2.addresses.find? (fun x => x.address == a.address) with
  | some rec =>
      simp only [hf, h2]
      exact (exec_shared_eqExceptTx ⟨h1, h2, h3, h4, h5⟩).2.2.1 _ _
  | none =>
      simp only [hf, h2, h5]
      refine (exec_shared_eqExceptTx ?_).2.2.1 _ _
      exact ⟨by simp [h1, h5], by simp [h2], by simp [h3], by simp [h4], by simp [h5]⟩

/-- The whole connect path: the failing-insert run and the clean run agree
outside the transaction table. -/
theorem connectBlock_eqExceptTx (env : ChainEnv) (blk : ChainBlock) (st : DBState) :
    eqExceptTx (connectBlock env failTxInsert blk st) (connectBlock env noFail blk st) := by
  have hc1 : exec failTxInsert (.setCursor blk.height blk.hash) st =
      { st with cursorHeight := blk.height, cursorHash := blk.hash } := rfl
  have hc2 : exec noFail (.setCursor blk.height blk.hash) st =
      { st with cursorHeight := blk.height, cursorHash := blk.hash } := rfl
  unfold connectBlock ProcessBlockTransactions
  rw [hc1, hc2]
  refine foldl_rel eqExceptTx _ _ (fun s1 s2 a hh => sweepStep_eqExceptTx a hh) _ _ _ ?_
  refine foldl_rel eqExceptTx _ _ ?_ blk.tx _ _ ?_
  · intro s1 s2 tx hh
    simp only [processTx]
    split
    · exact hh
    · refine foldl_rel eqExceptTx _ _
        (fun u1 u2 vin hv => processInput_eqExceptTx env blk _ _ _ tx vin hv) tx.vin _ _ ?_
      exact foldl_rel eqExceptTx _ _
        (fun u1 u2 iv hv => processOutput_eqExceptTx env blk _ _ _ tx iv hv) tx.vout.enum _ _ hh
  · unfold bulkConfirmationRefresh
    refine foldl_rel eqExceptTx _ _ ?_ _ _ _ (eqExceptTx_refl _)
    intro s1 s2 a hh
    exact eqExceptTx_trans ((exec_txOnly_eqExceptTx _ _).1 _ _ _)
      (eqExceptTx_trans hh (eqExceptTx_symm ((exec_txOnly_eqExceptTx _ _).1 _ _ _)))

/-- C2 (amended): a block connect issues its mutations as individual
autocommitted statements with no enclosing database transaction; when the
transaction INSERT statements error and everything else succeeds, every
other mutation of the block — UTXO inserts and deletes, balance updates and
the cursor update — still commits exactly as in the failure-free run, so
errors do not roll the block's work back and partially applied connects are
possible. -/
theorem C2_error_commits_other_mutations (env : ChainEnv) (blk : ChainBlock)
    (st : DBState) :
    (connectBlock env failTxInsert blk st).addresses =
      (connectBlock env noFail blk st).addresses ∧
    (connectBlock env failTxInsert blk st).utxos =
      (connectBlock env noFail blk st).utxos ∧
    (connectBlock env failTxInsert blk st).cursorHeight =
      (connectBlock env noFail blk st).cursorHeight ∧
    (connectBlock env failTxInsert blk st).cursorHash =
      (connectBlock env noFail blk st).cursorHash := by
  obtain ⟨h1, h2, h3, h4, _⟩ := connectBlock_eqExceptTx env blk st
  exact ⟨h1, h2, h3, h4⟩

/-- C2 counterexample: with only the transaction INSERT failing, the connect
of block b1 leaves the store changed — the UTXO and the cursor are committed
while no transaction row exists — refuting the claim that any error leaves
the state unchanged and that no proper subset of the block's mutations can
become visible. -/
theorem C2_counterexample_partial_connect :
    connectBlock envSimple failTxInsert blkC2 stC2 ≠ stC2 ∧
    (connectBlock envSimple failTxInsert blkC2 stC2).utxos =
      [{ addressId := 1, txId := "t1", vout := 0, amount := 5, script := "00" }] ∧
    (connectBlock envSimple failTxInsert blkC2 stC2).txRows = [] ∧
    (connectBlock envSimple failTxInsert blkC2 stC2).cursorHeight = 1 ∧
    (connectBlock envSimple failTxInsert blkC2 stC2).cursorHash = "b1" := by
  with_unfolding_all decide

theorem refreshRow_blockHeight (h q : Int) (r : Transaction) :
    (refreshRow h q r).blockHeight = r.blockHeight := by
  unfold refreshRow
  cases r.blockHeight <;> rfl

/-- The bulk confirmation refresh is a row map over the transaction table. -/
theorem bulkRefresh_state (H : Int) (addrs : List TrackedAddress) (st : DBState) :
    bulkConfirmationRefresh noFail H addrs st =
      { st with txRows := st.txRows.map (fun r =>
          addrs.foldl (fun r a =>
            if r.addressId == a.id then refreshRow H a.requiredConfirmations r else r) r) } := by
  induction addrs generalizing st with
  | nil => simp [bulkConfirmationRefresh]
  | cons a as ih =>
      have hstep : exec noFail (.bulkRefresh H a.id a.requiredConfirmations) st =
          { st with txRows := st.txRows.map (fun r =>
            if r.addressId == a.id then refreshRow H a.requiredConfirmations r else r) } := rfl
      show bulkConfirmationRefresh noFail H as
          (exec noFail (.bulkRefresh H a.id a.requiredConfirmations) st) = _
      rw [hstep, ih]
      simp only [List.map_map]
      rfl

/-- A fold of per-address refreshes skips a row none of the addresses own. -/
theorem foldl_refresh_skip (H : Int) (addrs : List TrackedAddress) (r : Transaction)
    (hall : ∀ b ∈ addrs, r.addressId ≠ b.id) :
    addrs.foldl (fun r b =>
      if r.addressId == b.id then refreshRow H b.requiredConfirmations r else r) r = r := by
  induction addrs with
  | nil => rfl
  | cons b bs ih =>
      simp only [List.foldl_cons]
      have hb : (r.addressId == b.id) = false := by
        simpa using hall b (List.mem_cons_self b bs)
      rw [hb]
      simp only [Bool.false_eq_true, if_false]
      exact ih (fun c hc => hall c (List.mem_cons_of_mem b hc))

/-- With distinct address ids, the fold of per-address refreshes applies the
owner's refresh exactly once to its rows. -/
theorem foldl_refresh_eq (H : Int) (addrs : List TrackedAddress)
    (hids : (addrs.map TrackedAddress.id).Nodup)
    (a : TrackedAddress) (ha : a ∈ addrs) (r : Transaction) (hr : r.addressId = a.id) :
    addrs.foldl (fun r b =>
      if r.addressId == b.id then refreshRow H b.requiredConfirmations r else r) r =
      refreshRow H a.requiredConfirmations r := by
  induction addrs with
  | nil => exact absurd ha (List.not_mem_nil a)
  | cons b bs ih =>
      simp only [List.map_cons, List.nodup_cons] at hids
      rcases List.mem_cons.1 ha with hab | hamem
      · subst hab
        simp only [List.foldl_cons, hr, beq_self_eq_true, if_true]
        refine foldl_refresh_skip H bs _ ?_
        intro c hc
        rw [refreshRow_addressId, hr]
        intro hid
        exact hids.1 (hid ▸ List.mem_map_of_mem TrackedAddress.id hc)
      · have hbne : (r.addressId == b.id) = false := by
          rw [hr]
          have : a.id ∈ bs.map TrackedAddress.id := List.mem_map_of_mem TrackedAddress.id hamem
          simp only [beq_eq_false_iff_ne, ne_eq]
          intro hid
          exact hids.1 (hid ▸ this)
        simp only [List.foldl_cons, hbne, Bool.false_eq_true, if_false]
        exact ih hids.2 hamem

theorem string_pending_ne_confirmed : ("pending" : String) ≠ "confirmed" := by decide

/-- A refreshed row satisfies both halves of the claimed invariant. -/
theorem refreshRow_invariant (H req : Int) (r : Transaction) :
    rowConfFormula H (refreshRow H req r) ∧ rowStatusIff req (refreshRow H req r) := by
  unfold rowConfFormula rowStatusIff refreshRow
  cases hbh : r.blockHeight with
  | none =>
      refine ⟨?_, ?_⟩
      · intro b hb
        simp at hb
      · intro hne
        simp at hne
  | some b0 =>
      refine ⟨?_, ?_⟩
      · intro b hb
        simp only [Option.some.injEq] at hb
        subst hb
        rfl
      · intro _
        by_cases hc : min50 (H - b0 + 1) ≥ req
        · simp only [if_pos hc]
          exact ⟨fun _ => hc, fun _ => trivial⟩
        · simp only [if_neg hc]
          constructor
          · intro hps
            exact absurd hps string_pending_ne_confirmed
          · intro hle
            exact absurd hle hc

/-- Key fields survive the per-address refresh fold. -/
theorem foldl_refresh_fields (H : Int) (addrs : List TrackedAddress) (r : Transaction) :
    (addrs.foldl (fun r b =>
      if r.addressId == b.id then refreshRow H b.requiredConfirmations r else r) r).addressId
        = r.addressId ∧
    (addrs.foldl (fun r b =>
      if r.addressId == b.id then refreshRow H b.requiredConfirmations r else r) r).txId
        = r.txId ∧
    (addrs.foldl (fun r b =>
      if r.addressId == b.id then refreshRow H b.requiredConfirmations r else r) r).blockHeight
        = r.blockHeight := by
  induction addrs generalizing r with
  | nil => exact ⟨rfl, rfl, rfl⟩
  | cons b bs ih =>
      simp only [List.foldl_cons]
      by_cases hb : (r.addressId == b.id) = true
      · rw [hb]
        simp only [if_true]
        obtain ⟨h1, h2, h3⟩ := ih (refreshRow H b.requiredConfirmations r)
        exact ⟨h1.trans (refreshRow_addressId _ _ _), h2.trans (refreshRow_txId _ _ _),
          h3.trans (refreshRow_blockHeight _ _ _)⟩
      · rw [Bool.not_eq_true] at hb
        rw [hb]
        simp only [Bool.false_eq_true, if_false]
        exact ih r

/-- After the bulk confirmation refresh, every row of every tracked address
satisfies the full claimed invariant, and rows keep their block heights. -/
theorem bulkRefresh_establishes (H : Int) (txids : List String) (st : DBState)
    (hids : (st.addresses.map TrackedAddress.id).Nodup)
    (hfresh : ∀ r ∈ st.txRows, r.blockHeight ≠ none → r.txId ∉ txids) :
    ∀ r ∈ (bulkConfirmationRefresh noFail H st.addresses st).txRows,
      ∀ a ∈ st.addresses, r.addressId = a.id →
        (rowConfFormula H r ∧ rowStatusIff a.requiredConfirmations r) ∧
        (r.txId ∈ txids → r.blockHeight = none ∨ r.blockHeight = some H) := by
  rw [bulkRefresh_state]
  intro r hr a ha hraid
  simp only [List.mem_map] at hr
  obtain ⟨r0, hr0, rfl⟩ := hr
  obtain ⟨hf1, hf2, hf3⟩ := foldl_refresh_fields H st.addresses r0
  have hr0aid : r0.addressId = a.id := hf1 ▸ hraid
  rw [foldl_refresh_eq H st.addresses hids a ha r0 hr0aid]
  refine ⟨refreshRow_invariant H a.requiredConfirmations r0, ?_⟩
  intro htxid
  rw [refreshRow_blockHeight]
  by_cases hb : r0.blockHeight = none
  · exact Or.inl hb
  · exfalso
    have := hfresh r0 hr0 hb
    rw [refreshRow_txId] at htxid
    exact this htxid

/-- Tracked addresses with equal ids are equal when the table's ids are
distinct. -/
theorem addr_eq_of_id_eq (addrs : List TrackedAddress)
    (hids : (addrs.map TrackedAddress.id).Nodup)
    {a a' : TrackedAddress} (ha : a ∈ addrs) (ha' : a' ∈ addrs)
    (h : a.id = a'.id) : a = a' :=
  List.inj_on_of_nodup_map hids ha ha' h

/-- The invariant is a property of the transaction table alone. -/
theorem connectRowsInv_congr (H : Int) (txids : List String)
    (addrs : List TrackedAddress) {s1 s2 : DBState}
    (h : s1.txRows = s2.txRows) :
    connectRowsInv H txids addrs s1 → connectRowsInv H txids addrs s2 := by
  unfold connectRowsInv
  rw [h]
  exact id

theorem min50_conf_one (H : Int) : min50 (H - H + 1) = 1 := by
  have h1 : H - H + 1 = 1 := by ring
  rw [h1]
  norm_num [min50]

/-- `AddTransaction` in insert mode appends the defaulted row. -/
theorem AddTransaction_insert (r : Transaction) (rows : List Transaction)
    (h : rows.any (txKeyEq r.addressId r.txId) = false) :
    AddTransaction r rows = rows ++ [insertedTxRow r.addressId r.txId r.blockHash
      r.blockHeight r.amount r.isIncoming r.confirmations] := by
  unfold AddTransaction
  rw [h]
  simp

/-- Appending the defaulted block-insert row preserves the invariant. -/
theorem rowsInv_insert (blk : ChainBlock) (txids : List String)
    (addrs : List TrackedAddress) (a : TrackedAddress) (tx : BlockTx)
    (htxid : tx.txID ∈ txids) (amount : Amount) (inc : Bool)
    (rows : List Transaction)
    (hrows : rowsInv blk.height txids addrs rows) :
    rowsInv blk.height txids addrs (rows ++ [insertedTxRow a.id tx.txID
      (some blk.hash) (some blk.height) amount inc 1]) := by
  intro r hr a' ha' hraid
  rcases List.mem_append.1 hr with hold | hnew
  · exact hrows r hold a' ha' hraid
  · have hr' : r = insertedTxRow a.id tx.txID (some blk.hash) (some blk.height)
        amount inc 1 := by simpa using hnew
    subst hr'
    refine ⟨⟨?_, Or.inr ⟨rfl, htxid⟩⟩, fun _ => Or.inr rfl⟩
    intro b hb
    simp only [insertedTxRow, Option.some.injEq] at hb
    subst hb
    exact (min50_conf_one blk.height).symm

/-- Mapping the per-transaction block UPDATE over the rows preserves the
invariant when the block's txids carry only null or current heights. -/
theorem rowsInv_updateMap (blk : ChainBlock) (txids : List String)
    (addrs : List TrackedAddress) (hids : (addrs.map TrackedAddress.id).Nodup)
    (a : TrackedAddress) (hamem : a ∈ addrs) (tx : BlockTx) (htxid : tx.txID ∈ txids)
    (fee : Amount) (ts : Int) (sender receiver : String)
    (rows : List Transaction)
    (hrows : rowsInv blk.height txids addrs rows) :
    rowsInv blk.height txids addrs (rows.map (fun r =>
      if txKeyEq a.id tx.txID r then
        updateRowFromBlock blk.hash blk.height fee ts a.requiredConfirmations
          sender receiver r
      else r)) := by
  intro r hr a' ha' hraid
  simp only [List.mem_map] at hr
  obtain ⟨r0, hr0, rfl⟩ := hr
  by_cases hkey : txKeyEq a.id tx.txID r0 = true
  · rw [if_pos hkey] at hraid ⊢
    have hk : r0.addressId = a.id ∧ r0.txId = tx.txID := by
      simpa [txKeyEq] using hkey
    have hold := hrows r0 hr0 a hamem hk.1
    have hbh := hold.2 (hk.2 ▸ htxid)
    have haa' : a = a' := by
      refine addr_eq_of_id_eq addrs hids hamem ha' ?_
      have : (updateRowFromBlock blk.hash blk.height fee ts
          a.requiredConfirmations sender receiver r0).addressId = r0.addressId := by
        unfold updateRowFromBlock
        cases r0.blockHeight <;> rfl
      rw [this, hk.1] at hraid
      exact hraid
    subst haa'
    rcases hbh with hnone | hsome
    · refine ⟨⟨?_, Or.inr ⟨?_, ?_⟩⟩, fun _ => Or.inr ?_⟩
      · intro b hb
        simp only [updateRowFromBlock, hnone, Option.some.injEq] at hb ⊢
        subst hb
        exact (min50_conf_one blk.height).symm
      · simp [updateRowFromBlock, hnone]
      · simp only [updateRowFromBlock, hnone]
        exact hk.2 ▸ htxid
      · simp [updateRowFromBlock, hnone]
    · refine ⟨⟨?_, Or.inl ?_⟩, fun _ => Or.inr ?_⟩
      · intro b hb
        simp only [updateRowFromBlock, hsome, Option.some.injEq] at hb ⊢
        subst hb
        rfl
      · unfold rowStatusIff
        intro _
        simp only [updateRowFromBlock, hsome]
        by_cases hc : min50 (blk.height - blk.height + 1) ≥ a.requiredConfirmations
        · simp only [if_pos hc]
          exact ⟨fun _ => hc, fun _ => trivial⟩
        · simp only [if_neg hc]
          constructor
          · intro hps
            exact absurd hps string_pending_ne_confirmed
          · intro hle
            exact absurd hle hc
      · simp [updateRowFromBlock, hsome]
  · rw [if_neg hkey] at hraid ⊢
    exact hrows r0 hr0 a' ha' hraid

/-- The incoming-output path preserves the connect invariant. -/
theorem processOutput_connectInv (env : ChainEnv) (blk : ChainBlock)
    (addrs : List TrackedAddress) (hids : (addrs.map TrackedAddress.id).Nodup)
    (fee : Amount) (ts : Int) (tx : BlockTx) (txids : List String)
    (htxid : tx.txID ∈ txids) (s : DBState) (iv : Nat × BlockTxOut)
    (hs : connectRowsInv blk.height txids addrs s) :
    connectRowsInv blk.height txids addrs
      (processOutput env noFail blk addrs fee ts tx s iv) := by
  simp only [processOutput]
  split
  · exact hs
  · split
    · exact hs
    · rename_i a hfind
      have hamem : a ∈ addrs := List.mem_of_find?_eq_some hfind
      simp only [exec, noFail, stmtEffect, Bool.false_eq_true, if_false]
      split
      · exact rowsInv_updateMap blk txids addrs hids a hamem tx htxid fee ts _ _
          s.txRows hs
      · rename_i hany
        unfold connectRowsInv
        show rowsInv blk.height txids addrs (AddTransaction _ s.txRows)
        rw [AddTransaction_insert _ _ (Bool.eq_false_iff.2 hany)]
        exact rowsInv_insert blk txids addrs a tx htxid _ _ s.txRows hs

/-- The outgoing-input path preserves the connect invariant. -/
theorem processInput_connectInv (env : ChainEnv) (blk : ChainBlock)
    (addrs : List TrackedAddress) (hids : (addrs.map TrackedAddress.id).Nodup)
    (fee : Amount) (ts : Int) (tx : BlockTx) (txids : List String)
    (htxid : tx.txID ∈ txids) (s : DBState) (vin : BlockTxIn)
    (hs : connectRowsInv blk.height txids addrs s) :
    connectRowsInv blk.height txids addrs
      (processInput env noFail blk addrs fee ts tx s vin) := by
  simp only [processInput]
  split
  · exact hs
  · split
    · exact hs
    · split
      · exact hs
      · split
        · exact hs
        · split
          · exact hs
          · rename_i a hfind
            have hamem : a ∈ addrs := List.mem_of_find?_eq_some hfind
            simp only [exec, noFail, stmtEffect, Bool.false_eq_true, if_false]
            split
            · exact rowsInv_updateMap blk txids addrs hids a hamem tx htxid fee ts _ _
                s.txRows hs
            · rename_i hany
              unfold connectRowsInv
              show rowsInv blk.height txids addrs (AddTransaction _ s.txRows)
              rw [AddTransaction_insert _ _ (Bool.eq_false_iff.2 hany)]
              exact rowsInv_insert blk txids addrs a tx htxid _ _ s.txRows hs

/-- Fold preservation with membership information. -/
theorem foldl_preserve_mem {σ α : Type} (P : σ → Prop) (l : List α) (f : σ → α → σ)
    (hstep : ∀ s x, x ∈ l → P s → P (f s x)) : ∀ s, P s → P (l.foldl f s) := by
  induction l with
  | nil => exact fun s h => h
  | cons x xs ih =>
      intro s h
      exact ih (fun s' y hy hs' => hstep s' y (List.mem_cons_of_mem x hy) hs') _
        (hstep s x (List.mem_cons_self x xs) h)

theorem processOutput_cursorHeight (env : ChainEnv) (F : Stmt → Bool) (blk : ChainBlock)
    (tracked : List TrackedAddress) (fee : Amount) (ts : Int) (tx : BlockTx)
    (s : DBState) (iv : Nat × BlockTxOut) :
    (processOutput env F blk tracked fee ts tx s iv).cursorHeight = s.cursorHeight := by
  simp only [processOutput, exec, stmtEffect]
  repeat' split
  all_goals rfl

theorem processOutput_cursorHash (env : ChainEnv) (F : Stmt → Bool) (blk : ChainBlock)
    (tracked : List TrackedAddress) (fee : Amount) (ts : Int) (tx : BlockTx)
    (s : DBState) (iv : Nat × BlockTxOut) :
    (processOutput env F blk tracked fee ts tx s iv).cursorHash = s.cursorHash := by
  simp only [processOutput, exec, stmtEffect]
  repeat' split
  all_goals rfl

theorem processInput_cursorHeight (env : ChainEnv) (F : Stmt → Bool) (blk : ChainBlock)
    (tracked : List TrackedAddress) (fee : Amount) (ts : Int) (tx : BlockTx)
    (s : DBState) (vin : BlockTxIn) :
    (processInput env F blk tracked fee ts tx s vin).cursorHeight = s.cursorHeight := by
  simp only [processInput, exec, stmtEffect]
  repeat' split
  all_goals rfl

theorem processInput_cursorHash (env : ChainEnv) (F : Stmt → Bool) (blk : ChainBlock)
    (tracked : List TrackedAddress) (fee : Amount) (ts : Int) (tx : BlockTx)
    (s : DBState) (vin : BlockTxIn) :
    (processInput env F blk tracked fee ts tx s vin).cursorHash = s.cursorHash := by
  simp only [processInput, exec, stmtEffect]
  repeat' split
  all_goals rfl

theorem processTx_cursorHeight (env : ChainEnv) (F : Stmt → Bool) (blk : ChainBlock)
    (tracked : List TrackedAddress) (s : DBState) (tx : BlockTx) :
    (processTx env F blk tracked s tx).cursorHeight = s.cursorHeight := by
  simp only [processTx]
  split
  · rfl
  · refine foldl_preserve (fun t : DBState => t.cursorHeight = s.cursorHeight) _ ?_ tx.vin _
      (foldl_preserve (fun t : DBState => t.cursorHeight = s.cursorHeight) _ ?_ tx.vout.enum s rfl)
    · intro t vin ht
      exact (processInput_cursorHeight env F blk tracked _ _ tx t vin).trans ht
    · intro t iv ht
      exact (processOutput_cursorHeight env F blk tracked _ _ tx t iv).trans ht

theorem processTx_cursorHash (env : ChainEnv) (F : Stmt → Bool) (blk : ChainBlock)
    (tracked : List TrackedAddress) (s : DBState) (tx : BlockTx) :
    (processTx env F blk tracked s tx).cursorHash = s.cursorHash := by
  simp only [processTx]
  split
  · rfl
  · refine foldl_preserve (fun t : DBState => t.cursorHash = s.cursorHash) _ ?_ tx.vin _
      (foldl_preserve (fun t : DBState => t.cursorHash = s.cursorHash) _ ?_ tx.vout.enum s rfl)
    · intro t vin ht
      exact (processInput_cursorHash env F blk tracked _ _ tx t vin).trans ht
    · intro t iv ht
      exact (processOutput_cursorHash env F blk tracked _ _ tx t iv).trans ht

theorem foldl_processTx_cursorHeight (env : ChainEnv) (F : Stmt → Bool) (blk : ChainBlock)
    (tracked : List TrackedAddress) (l : List BlockTx) (s : DBState) :
    (l.foldl (processTx env F blk tracked) s).cursorHeight = s.cursorHeight :=
  foldl_preserve (fun t => t.cursorHeight = s.cursorHeight) _
    (fun t tx ht => (processTx_cursorHeight env F blk tracked t tx).trans ht) l s rfl

theorem foldl_processTx_cursorHash (env : ChainEnv) (F : Stmt → Bool) (blk : ChainBlock)
    (tracked : List TrackedAddress) (l : List BlockTx) (s : DBState) :
    (l.foldl (processTx env F blk tracked) s).cursorHash = s.cursorHash :=
  foldl_preserve (fun t => t.cursorHash = s.cursorHash) _
    (fun t tx ht => (processTx_cursorHash env F blk tracked t tx).trans ht) l s rfl

theorem balanceSweep_cursorHeight (F : Stmt → Bool) (tracked : List TrackedAddress)
    (s : DBState) : (balanceSweep F tracked s).cursorHeight = s.cursorHeight := by
  unfold balanceSweep
  refine foldl_preserve (fun t : DBState => t.cursorHeight = s.cursorHeight) _ ?_ tracked s rfl
  intro t a ht
  unfold GetAddressDetails GetOrCreateAddress exec
  cases hf : t.addresses.find? (fun x => x.address == a.address) <;>
    simp only [hf] <;> split <;> exact ht

theorem balanceSweep_cursorHash (F : Stmt → Bool) (tracked : List TrackedAddress)
    (s : DBState) : (balanceSweep F tracked s).cursorHash = s.cursorHash := by
  unfold balanceSweep
  refine foldl_preserve (fun t : DBState => t.cursorHash = s.cursorHash) _ ?_ tracked s rfl
  intro t a ht
  unfold GetAddressDetails GetOrCreateAddress exec
  cases hf : t.addresses.find? (fun x => x.address == a.address) <;>
    simp only [hf] <;> split <;> exact ht

theorem balanceSweep_txRows (F : Stmt → Bool) (tracked : List TrackedAddress)
    (s : DBState) : (balanceSweep F tracked s).txRows = s.txRows := by
  unfold balanceSweep
  refine foldl_preserve (fun t : DBState => t.txRows = s.txRows) _ ?_ tracked s rfl
  intro t a ht
  unfold GetAddressDetails GetOrCreateAddress exec
  cases hf : t.addresses.find? (fun x => x.address == a.address) <;>
    simp only [hf] <;> split <;> exact ht

/-- One block transaction preserves the connect invariant. -/
theorem processTx_connectInv (env : ChainEnv) (blk : ChainBlock)
    (addrs : List TrackedAddress) (hids : (addrs.map TrackedAddress.id).Nodup)
    (txids : List String) (tx : BlockTx) (htx : tx.txID ∈ txids)
    (s : DBState) (hs : connectRowsInv blk.height txids addrs s) :
    connectRowsInv blk.height txids addrs (processTx env noFail blk addrs s tx) := by
  simp only [processTx]
  split
  · exact hs
  · refine foldl_preserve (connectRowsInv blk.height txids addrs) _ ?_ tx.vin _
      (foldl_preserve (connectRowsInv blk.height txids addrs) _ ?_ tx.vout.enum s hs)
    · intro t vin ht
      exact processInput_connectInv env blk addrs hids _ _ tx txids htx t vin ht
    · intro t iv ht
      exact processOutput_connectInv env blk addrs hids _ _ tx txids htx t iv ht

/-- C1 (amended): the bulk confirmation refresh at the start of a block
connect re-establishes, for every row of every tracked address, both the
confirmation formula min(50, height - block_height + 1) and the status
equivalence; after the full connect (with the cursor at the block's height
and hash) every row with non-null block_height still satisfies the
confirmation formula, but a row written by this block may be left with
status pending even when its confirmations reach the requirement — the
status equivalence is only guaranteed for rows not touched by the block
until the next connect's bulk refresh. -/
theorem C1_bulk_refresh_and_connect (env : ChainEnv) (blk : ChainBlock) (st : DBState)
    (hids : (st.addresses.map TrackedAddress.id).Nodup)
    (hfresh : ∀ r ∈ st.txRows, r.blockHeight ≠ none →
      r.txId ∉ blk.tx.map BlockTx.txID) :
    (∀ r ∈ (bulkConfirmationRefresh noFail blk.height st.addresses st).txRows,
      ∀ a ∈ st.addresses, r.addressId = a.id →
        rowConfFormula blk.height r ∧ rowStatusIff a.requiredConfirmations r) ∧
    (∀ r ∈ (connectBlock env noFail blk st).txRows,
      ∀ a ∈ st.addresses, r.addressId = a.id →
        rowConfFormula blk.height r ∧
        (rowStatusIff a.requiredConfirmations r ∨
          (r.status = "pending" ∧ r.txId ∈ blk.tx.map BlockTx.txID))) ∧
    (connectBlock env noFail blk st).cursorHeight = blk.height ∧
    (connectBlock env noFail blk st).cursorHash = blk.hash := by
  refine ⟨?_, ?_, ?_, ?_⟩
  · intro r hr a ha hraid
    exact ((bulkRefresh_establishes blk.height (blk.tx.map BlockTx.txID) st hids
      hfresh) r hr a ha hraid).1
  · have hinv : connectRowsInv blk.height (blk.tx.map BlockTx.txID) st.addresses
        (connectBlock env noFail blk st) := by
      unfold connectBlock ProcessBlockTransactions
      refine connectRowsInv_congr _ _ _ (balanceSweep_txRows noFail _ _).symm ?_
      refine foldl_preserve_mem (connectRowsInv blk.height (blk.tx.map BlockTx.txID)
        st.addresses) blk.tx _ ?_ _ ?_
      · intro t tx htx ht
        exact processTx_connectInv env blk st.addresses hids _ tx
          (List.mem_map_of_mem BlockTx.txID htx) t ht
      · intro r hr a ha hraid
        have hbase := bulkRefresh_establishes blk.height (blk.tx.map BlockTx.txID)
          (exec noFail (.setCursor blk.height blk.hash) st) hids hfresh r hr a ha hraid
        exact ⟨⟨hbase.1.1, Or.inl hbase.1.2⟩, hbase.2⟩
    intro r hr a ha hraid
    exact (hinv r hr a ha hraid).1
  · unfold connectBlock ProcessBlockTransactions
    rw [balanceSweep_cursorHeight, foldl_processTx_cursorHeight, bulkRefresh_state]
    rfl
  · unfold connectBlock ProcessBlockTransactions
    rw [balanceSweep_cursorHash, foldl_processTx_cursorHash, bulkRefresh_state]
    rfl

/-- C1 counterexample: connect block h5 (height 5) confirming the pending
mempool transaction t1 for address D1 with required_confirmations 1; after
the committed connect, the row has block height 5 and 1 confirmation —
meeting the requirement — yet its status is still pending, refuting the
claimed status equivalence after every committed unit of work. -/
theorem C1_counterexample_pending_after_connect :
    ((connectBlock envSimple noFail blkC1 stC1).txRows.map
      (fun r => (r.addressId, r.blockHeight, r.confirmations, r.status)) =
        [(1, some 5, 1, "pending")]) ∧
    stC1.addresses.map (fun a => (a.id, a.requiredConfirmations)) = [(1, 1)] ∧
    (connectBlock envSimple noFail blkC1 stC1).cursorHeight = 5 := by
  with_unfolding_all decide

/-- C1 witness: a concrete connect (block h5 onto the D1 store) satisfying
the distinct-id and fresh-txid hypotheses of the amended theorem. -/
theorem C1_bulk_refresh_and_connect_witness :
    (stC1.addresses.map TrackedAddress.id).Nodup ∧
    (∀ r ∈ stC1.txRows, r.blockHeight ≠ none →
      r.txId ∉ blkC1.tx.map BlockTx.txID) ∧
    ((∀ r ∈ (bulkConfirmationRefresh noFail blkC1.height stC1.addresses stC1).txRows,
      ∀ a ∈ stC1.addresses, r.addressId = a.id →
        rowConfFormula blkC1.height r ∧ rowStatusIff a.requiredConfirmations r) ∧
    (∀ r ∈ (connectBlock envSimple noFail blkC1 stC1).txRows,
      ∀ a ∈ stC1.addresses, r.addressId = a.id →
        rowConfFormula blkC1.height r ∧
        (rowStatusIff a.requiredConfirmations r ∨
          (r.status = "pending" ∧ r.txId ∈ blkC1.tx.map BlockTx.txID))) ∧
    (connectBlock envSimple noFail blkC1 stC1).cursorHeight = blkC1.height ∧
    (connectBlock envSimple noFail blkC1 stC1).cursorHash = blkC1.hash) :=
  ⟨by decide, by decide,
    C1_bulk_refresh_and_connect envSimple blkC1 stC1 (by decide) (by decide)⟩

/-! ## C3: HandleChainReorganization and the undo event. -/

theorem any_false {α : Type} (l : List α) : l.any (fun _ => false) = false := by
  induction l with
  | nil => rfl
  | cons a t ih => simp [List.any_cons, ih]

theorem anyCongrMem {α : Type} {l : List α} {p q : α → Bool}
    (h : ∀ a ∈ l, p a = q a) : l.any p = l.any q := by
  induction l with
  | nil => rfl
  | cons a t ih =>
      simp only [List.any_cons, h a (List.mem_cons_self a t),
        ih (fun x hx => h x (List.mem_cons_of_mem a hx))]

theorem anyFlatMap {α β : Type} (l : List α) (f : α → List β) (q : β → Bool) :
    (l.flatMap f).any q = l.any (fun a => (f a).any q) := by
  induction l with
  | nil => rfl
  | cons a t ih => simp [List.flatMap_cons, List.any_append, ih]

theorem undoPairs_foldl (pairs : List (Transaction × Option UnspentOutput)) (s : DBState) :
    pairs.foldl (fun s p =>
      let s1 :=
        match p.2 with
        | some u =>
            if p.1.isIncoming then exec noFail (.removeUnspent u.addressId u.txId u.vout) s
            else s
        | none => s
      exec noFail (.delTx p.1.addressId p.1.txId) s1) s =
    { s with
      txRows := s.txRows.filter (fun r => !pairs.any (fun p => txKeyEq p.1.addressId p.1.txId r)),
      utxos := s.utxos.filter (fun v => !pairs.any (fun p =>
        match p.2 with
        | some u => p.1.isIncoming && utxoKeyEq u.addressId u.txId u.vout v
        | none => false)) } := by
  induction pairs generalizing s with
  | nil =>
      simp [List.any_nil, List.filter_true]
  | cons p ps ih =>
      rcases p with ⟨t, uo⟩
      rw [List.foldl_cons, ih]
      cases uo with
      | none =>
          simp only [exec, noFail, stmtEffect, Bool.false_eq_true, if_false]
          simp only [List.filter_filter, List.any_cons, Bool.not_or, DBState.mk.injEq]
          refine ⟨trivial, ?_, ?_, trivial, trivial, trivial⟩
          · apply List.filter_congr
            intro x _
            cases hx : txKeyEq t.addressId t.txId x <;> simp [hx]
          · apply List.filter_congr
            intro x _
            simp
      | some u =>
          by_cases hinc : t.isIncoming = true
          · simp only [exec, noFail, stmtEffect, Bool.false_eq_true, if_false, hinc, if_true,
              RemoveUnspentOutput]
            simp only [List.filter_filter, List.any_cons, Bool.not_or, DBState.mk.injEq]
            refine ⟨trivial, ?_, ?_, trivial, trivial, trivial⟩
            · apply List.filter_congr
              intro x _
              cases hx : txKeyEq t.addressId t.txId x <;> simp [hx]
            · apply List.filter_congr
              intro x _
              cases hx : utxoKeyEq u.addressId u.txId u.vout x <;> simp [hx, hinc]
          · simp only [exec, noFail, stmtEffect, Bool.false_eq_true, if_false, hinc]
            simp only [List.filter_filter, List.any_cons, Bool.not_or, DBState.mk.injEq]
            refine ⟨trivial, ?_, ?_, trivial, trivial, trivial⟩
            · apply List.filter_congr
              intro x _
              cases hx : txKeyEq t.addressId t.txId x <;> simp [hx]
            · apply List.filter_congr
              intro x _
              simp [hinc]

theorem undoStep_foldl (pairs : List (Transaction × Option UnspentOutput)) (s : DBState) :
    pairs.foldl (undoStep noFail) s =
    { s with
      txRows := s.txRows.filter (fun r => !pairs.any (fun p => txKeyEq p.1.addressId p.1.txId r)),
      utxos := s.utxos.filter (fun v => !pairs.any (fun p =>
        match p.2 with
        | some u => p.1.isIncoming && utxoKeyEq u.addressId u.txId u.vout v
        | none => false)) } := by
  have hfun : undoStep noFail =
      (fun s (p : Transaction × Option UnspentOutput) =>
        let s1 :=
          match p.2 with
          | some u =>
              if p.1.isIncoming then exec noFail (.removeUnspent u.addressId u.txId u.vout) s
              else s
          | none => s
        exec noFail (.delTx p.1.addressId p.1.txId) s1) := rfl
  rw [hfun]
  exact undoPairs_foldl pairs s

theorem undoInner_tx (st : DBState) (t r : Transaction) :
    ((let us := st.utxos.filter (fun u => u.addressId == t.addressId && u.txId == t.txId)
      if us.isEmpty then [(t, (none : Option UnspentOutput))] else us.map (fun u => (t, some u))).any
        (fun p => txKeyEq p.1.addressId p.1.txId r)) = txKeyEq t.addressId t.txId r := by
  by_cases he : (st.utxos.filter (fun u => u.addressId == t.addressId && u.txId == t.txId)).isEmpty = true
  · simp [he]
  · simp only [he, Bool.false_eq_true, if_false, List.any_map]
    rcases hus : st.utxos.filter (fun u => u.addressId == t.addressId && u.txId == t.txId) with _ | ⟨u0, us'⟩
    · rw [hus] at he
      simp at he
    · rw [hus]
      cases hc : txKeyEq t.addressId t.txId r with
      | true => simp [Function.comp, hc]
      | false =>
          refine List.any_eq_false.2 ?_
          intro p hp
          rcases List.mem_map.1 hp with ⟨u, _, rfl⟩
          simpa [Function.comp] using hc

theorem undoInner_utxo (st : DBState) (t : Transaction) (v : UnspentOutput)
    (hv : v ∈ st.utxos) :
    ((let us := st.utxos.filter (fun u => u.addressId == t.addressId && u.txId == t.txId)
      if us.isEmpty then [(t, (none : Option UnspentOutput))] else us.map (fun u => (t, some u))).any
        (fun p => match p.2 with
          | some u => p.1.isIncoming && utxoKeyEq u.addressId u.txId u.vout v
          | none => false)) =
      (t.isIncoming && (v.addressId == t.addressId && v.txId == t.txId)) := by
  by_cases he : (st.utxos.filter (fun u => u.addressId == t.addressId && u.txId == t.txId)).isEmpty = true
  · cases hk : (v.addressId == t.addressId && v.txId == t.txId) with
    | true =>
        exfalso
        have hvm : v ∈ st.utxos.filter (fun u => u.addressId == t.addressId && u.txId == t.txId) :=
          List.mem_filter.2 ⟨hv, hk⟩
        rw [List.isEmpty_iff] at he
        rw [he] at hvm
        exact absurd hvm (List.not_mem_nil v)
    | false => simp [he, hk]
  · simp only [he, Bool.false_eq_true, if_false]
    cases hinc : t.isIncoming with
    | false =>
        have hL : ((st.utxos.filter (fun u => u.addressId == t.addressId && u.txId == t.txId)).map
            (fun u => (t, some u))).any
            (fun p : Transaction × Option UnspentOutput => match p.2 with
              | some u => p.1.isIncoming && utxoKeyEq u.addressId u.txId u.vout v
              | none => false) = false := by
          refine List.any_eq_false.2 ?_
          intro p hp
          rcases List.mem_map.1 hp with ⟨u, _, rfl⟩
          simp [hinc]
        rw [hL]
        simp
    | true =>
        cases hk : (v.addressId == t.addressId && v.txId == t.txId) with
        | true =>
            have hR : ((st.utxos.filter (fun u => u.addressId == t.addressId && u.txId == t.txId)).map
                (fun u => (t, some u))).any
                (fun p : Transaction × Option UnspentOutput => match p.2 with
                  | some u => p.1.isIncoming && utxoKeyEq u.addressId u.txId u.vout v
                  | none => false) = true := by
              refine List.any_eq_true.2 ⟨(t, some v), List.mem_map.2 ⟨v, List.mem_filter.2 ⟨hv, hk⟩, rfl⟩, ?_⟩
              simp [hinc, utxoKeyEq]
            rw [hR]
            simp
        | false =>
            have hL : ((st.utxos.filter (fun u => u.addressId == t.addressId && u.txId == t.txId)).map
                (fun u => (t, some u))).any
                (fun p : Transaction × Option UnspentOutput => match p.2 with
                  | some u => p.1.isIncoming && utxoKeyEq u.addressId u.txId u.vout v
                  | none => false) = false := by
              refine List.any_eq_false.2 ?_
              intro p hp
              rcases List.mem_map.1 hp with ⟨u, hu, rfl⟩
              cases hkey : utxoKeyEq u.addressId u.txId u.vout v with
              | false => simp [hkey]
              | true =>
                  exfalso
                  simp only [utxoKeyEq, Bool.and_eq_true, beq_iff_eq] at hkey
                  have hu' := (List.mem_filter.1 hu).2
                  simp only [Bool.and_eq_true, beq_iff_eq] at hu'
                  have hcontra : (v.addressId == t.addressId && v.txId == t.txId) = true := by
                    simp [hkey.1.1, hkey.1.2, hu'.1, hu'.2]
                  rw [hk] at hcontra
                  exact Bool.false_ne_true hcontra
            rw [hL]
            simp

theorem key_eq_of_nodup (rows : List Transaction)
    (hK : (txKeys rows).Nodup) (t r : Transaction) (ht : t ∈ rows) (hr : r ∈ rows)
    (h : txKeyEq t.addressId t.txId r = true) : t = r := by
  simp only [txKeyEq, Bool.and_eq_true, beq_iff_eq] at h
  have hinj := List.inj_on_of_nodup_map hK
  exact (hinj ht hr (by simp [h.1, h.2])).symm ▸ rfl

theorem snap_any_key (rows : List Transaction) (h : String) (r : Transaction)
    (hK : (txKeys rows).Nodup) (hr : r ∈ rows) :
    (rows.filter (fun t => t.blockHash == some h)).any
      (fun t => txKeyEq t.addressId t.txId r) = (r.blockHash == some h) := by
  cases hbh : (r.blockHash == some h) with
  | true =>
      refine List.any_eq_true.2 ⟨r, List.mem_filter.2 ⟨hr, hbh⟩, ?_⟩
      simp [txKeyEq]
  | false =>
      refine List.any_eq_false.2 ?_
      intro t ht hkey
      have htr := key_eq_of_nodup rows hK t r (List.mem_filter.1 ht).1 hr hkey
      have := (List.mem_filter.1 ht).2
      rw [htr, hbh] at this
      exact Bool.false_ne_true this

theorem undoPass_spec (st : DBState) (h : String)
    (hK : (txKeys st.txRows).Nodup) :
    undoPass noFail st h =
    { st with
      txRows := st.txRows.filter (fun r => !(r.blockHash == some h)),
      utxos := st.utxos.filter (fun v => !(st.txRows.any (fun t =>
        (t.blockHash == some h) && (t.isIncoming &&
          (v.addressId == t.addressId && v.txId == t.txId))))) } := by
  simp only [undoPass]
  rw [undoStep_foldl]
  simp only [DBState.mk.injEq]
  refine ⟨trivial, ?_, ?_, trivial, trivial, trivial⟩
  · apply List.filter_congr
    intro r hr
    rw [anyFlatMap, anyCongrMem (fun t _ => undoInner_tx st t r),
      snap_any_key st.txRows h r hK hr]
  · apply List.filter_congr
    intro v hv
    rw [anyFlatMap, anyCongrMem (fun t _ => undoInner_utxo st t v hv), List.any_filter]

theorem txKeys_filter_nodup (rows : List Transaction) (p : Transaction → Bool)
    (hK : (txKeys rows).Nodup) : (txKeys (rows.filter p)).Nodup :=
  List.Nodup.sublist (List.Sublist.map _ (List.filter_sublist rows)) hK

theorem undoneUtxo_fuse (rows : List Transaction) (h : String) (hs : List String)
    (v : UnspentOutput) :
    (!undoneUtxo hs (rows.filter (fun r => !(r.blockHash == some h))) v &&
      !(rows.any (fun t => (t.blockHash == some h) && (t.isIncoming &&
        (v.addressId == t.addressId && v.txId == t.txId))))) =
    !undoneUtxo (h :: hs) rows v := by
  simp only [undoneUtxo, undoneRow, List.any_cons, List.any_filter]
  rw [← Bool.not_or]
  have hmain : (rows.any (fun t => !(t.blockHash == some h) &&
        (hs.any (fun h' => t.blockHash == some h') && (t.isIncoming &&
          (v.addressId == t.addressId && v.txId == t.txId)))) ||
      rows.any (fun t => (t.blockHash == some h) && (t.isIncoming &&
        (v.addressId == t.addressId && v.txId == t.txId)))) =
      rows.any (fun t => ((t.blockHash == some h) ||
        hs.any (fun h' => t.blockHash == some h')) && (t.isIncoming &&
          (v.addressId == t.addressId && v.txId == t.txId))) := by
    rw [Bool.eq_iff_iff]
    simp only [Bool.or_eq_true, List.any_eq_true, Bool.and_eq_true, Bool.not_eq_true']
    constructor
    · rintro (⟨t, ht, hnb, hany, hrest⟩ | ⟨t, ht, hb, hrest⟩)
      · exact ⟨t, ht, Or.inr hany, hrest⟩
      · exact ⟨t, ht, Or.inl hb, hrest⟩
    · rintro ⟨t, ht, hor, hrest⟩
      cases hb : (t.blockHash == some h) with
      | true => exact Or.inr ⟨t, ht, hb, hrest⟩
      | false =>
          rcases hor with hb' | hany
          · rw [hb] at hb'
            exact absurd hb' Bool.false_ne_true
          · exact Or.inl ⟨t, ht, hb, hany, hrest⟩
  rw [hmain]

theorem undoFold_spec (hs : List String) (st : DBState)
    (hK : (txKeys st.txRows).Nodup) :
    hs.foldl (undoPass noFail) st =
    { st with
      txRows := st.txRows.filter (fun r => !undoneRow hs r),
      utxos := st.utxos.filter (fun v => !undoneUtxo hs st.txRows v) } := by
  induction hs generalizing st with
  | nil =>
      simp [undoneRow, undoneUtxo, List.any_nil, any_false, List.filter_true]
  | cons h hs ih =>
      rw [List.foldl_cons, undoPass_spec st h hK,
        ih _ (txKeys_filter_nodup st.txRows _ hK)]
      simp only [DBState.mk.injEq, List.filter_filter]
      refine ⟨trivial, ?_, ?_, trivial, trivial, trivial⟩
      · apply List.filter_congr
        intro r hr
        simp only [undoneRow, List.any_cons, Bool.not_or]
        exact Bool.and_comm _ _
      · apply List.filter_congr
        intro v hv
        exact undoneUtxo_fuse st.txRows h hs v

theorem find?_self_of_nodup (addrs : List TrackedAddress) (a : TrackedAddress)
    (hS : (addrs.map TrackedAddress.address).Nodup) (ha : a ∈ addrs) :
    addrs.find? (fun x => x.address == a.address) = some a := by
  induction addrs with
  | nil => exact absurd ha (List.not_mem_nil a)
  | cons b t ih =>
      simp only [List.map_cons, List.nodup_cons] at hS
      rcases List.mem_cons.1 ha with hab | hmem
      · subst hab
        simp [List.find?_cons]
      · have hb : (b.address == a.address) = false := by
          simp only [beq_eq_false_iff_ne, ne_eq]
          intro he
          exact hS.1 (he ▸ List.mem_map_of_mem TrackedAddress.address hmem)
        rw [List.find?_cons, hb]
        exact ih hS.2 hmem

theorem foldl_bal_skip (l : List TrackedAddress) (B : TrackedAddress → Amount)
    (x : TrackedAddress) (hall : ∀ b ∈ l, x.id ≠ b.id) :
    l.foldl (fun y b => if y.id == b.id then { y with balance := B b } else y) x = x := by
  induction l with
  | nil => rfl
  | cons b bs ih =>
      simp only [List.foldl_cons]
      have hb : (x.id == b.id) = false := by
        simpa using hall b (List.mem_cons_self b bs)
      rw [hb]
      simp only [Bool.false_eq_true, if_false]
      exact ih (fun c hc => hall c (List.mem_cons_of_mem b hc))

theorem foldl_bal_eq (l : List TrackedAddress) (hids : (l.map TrackedAddress.id).Nodup)
    (B : TrackedAddress → Amount) (a : TrackedAddress) (ha : a ∈ l) (x : TrackedAddress)
    (hx : x.id = a.id) :
    l.foldl (fun y b => if y.id == b.id then { y with balance := B b } else y) x =
      { x with balance := B a } := by
  induction l with
  | nil => exact absurd ha (List.not_mem_nil a)
  | cons b bs ih =>
      simp only [List.map_cons, List.nodup_cons] at hids
      rcases List.mem_cons.1 ha with hab | hamem
      · subst hab
        simp only [List.foldl_cons, hx, beq_self_eq_true, if_true]
        refine foldl_bal_skip bs B _ ?_
        intro c hc hidc
        simp only at hidc
        refine hids.1 ?_
        rw [show a.id = c.id from hidc]
        exact List.mem_map_of_mem TrackedAddress.id hc
      · have hbne : (x.id == b.id) = false := by
          rw [hx]
          simp only [beq_eq_false_iff_ne, ne_eq]
          intro hid
          exact hids.1 (hid ▸ List.mem_map_of_mem TrackedAddress.id hamem)
        simp only [List.foldl_cons, hbne, Bool.false_eq_true, if_false]
        exact ih hids.2 hamem

theorem foldl_map_fuse {α β : Type} (l : List α) (g : α → β → β) (xs : List β) :
    l.foldl (fun acc a => acc.map (g a)) xs = xs.map (fun x => l.foldl (fun x a => g a x) x) := by
  induction l generalizing xs with
  | nil => simp
  | cons a t ih =>
      rw [List.foldl_cons, ih, List.map_map]
      rfl

theorem balanceSweep_spec (l : List TrackedAddress) (s : DBState)
    (hfind : ∀ a ∈ l, ∃ x, s.addresses.find? (fun y => y.address == a.address) = some x ∧
      x.id = a.id) :
    balanceSweep noFail l s =
      { s with addresses := l.foldl (fun addrs a => addrs.map (fun y =>
          if y.id == a.id then
            { y with balance := sumAmounts (s.utxos.filter (fun u => u.addressId == a.id)) }
          else y)) s.addresses } := by
  induction l generalizing s with
  | nil => simp [balanceSweep]
  | cons a tl ih =>
      obtain ⟨x, hx, hid⟩ := hfind a (List.mem_cons_self a tl)
      have hga : GetOrCreateAddress s a.address = (s, x) := by
        simp [GetOrCreateAddress, hx]
      have hstep : exec noFail (Stmt.updBalance a.id
            (sumAmounts (GetAddressDetails s a.address).2.2.2))
            (GetAddressDetails s a.address).1
          = { s with addresses := s.addresses.map (fun y =>
              if y.id == a.id then
                { y with balance := sumAmounts (s.utxos.filter (fun u => u.addressId == a.id)) }
              else y) } := by
        simp only [GetAddressDetails, hga, exec, noFail, stmtEffect, hid,
          Bool.false_eq_true, if_false]
      simp only [balanceSweep, List.foldl_cons] at ih ⊢
      rw [hstep]
      rw [ih]
      intro b hb
      obtain ⟨x', hx', hid'⟩ := hfind b (List.mem_cons_of_mem a hb)
      have hg : ∀ y : TrackedAddress,
          ((fun y => if y.id == a.id then
            { y with balance := sumAmounts (s.utxos.filter (fun u => u.addressId == a.id)) }
          else y) y).address = y.address := by
        intro y
        by_cases hy : (y.id == a.id) = true <;> simp [hy]
      refine ⟨(fun y => if y.id == a.id then
          { y with balance := sumAmounts (s.utxos.filter (fun u => u.addressId == a.id)) }
        else y) x', ?_, ?_⟩
      · rw [find?_map_addr b.address _ hg s.addresses, hx']
        rfl
      · by_cases hy : (x'.id == a.id) = true
        · simp only [hy, if_true]
          exact hid'
        · simp only [hy, Bool.false_eq_true, if_false]
          exact hid'

/-- C3 (amended): under unique (address_id, tx_id) row keys and distinct
tracked-address ids and strings, processing an Undo event in the
failure-free run deletes exactly the transaction rows whose block_hash is in
the invalid list, deletes exactly the unspent outputs keyed by an undone
incoming row, and recomputes every tracked address's balance as the sum of
its remaining unspent outputs -- but it leaves the block cursor untouched
rather than setting it to (last_valid_height, resume_from_block). -/
theorem C3_reorg_undo (u : UndoForkBlocks) (st : DBState)
    (hK : (txKeys st.txRows).Nodup)
    (hI : (st.addresses.map TrackedAddress.id).Nodup)
    (hS : (st.addresses.map TrackedAddress.address).Nodup) :
    (HandleChainReorganization noFail u st).txRows
        = st.txRows.filter (fun r => !undoneRow u.blockHashes r) ∧
    (HandleChainReorganization noFail u st).utxos
        = st.utxos.filter (fun v => !undoneUtxo u.blockHashes st.txRows v) ∧
    (HandleChainReorganization noFail u st).addresses
        = st.addresses.map (fun a => { a with balance := reorgBalance u st a }) ∧
    (HandleChainReorganization noFail u st).cursorHeight = st.cursorHeight ∧
    (HandleChainReorganization noFail u st).cursorHash = st.cursorHash := by
  have hpost : HandleChainReorganization noFail u st
      = balanceSweep noFail st.addresses (u.blockHashes.foldl (undoPass noFail) st) := rfl
  have hfind : ∀ a ∈ st.addresses,
      ∃ x, (u.blockHashes.foldl (undoPass noFail) st).addresses.find?
        (fun y => y.address == a.address) = some x ∧ x.id = a.id := by
    intro a ha
    rw [undoFold_spec u.blockHashes st hK]
    exact ⟨a, find?_self_of_nodup st.addresses a hS ha, rfl⟩
  rw [hpost, balanceSweep_spec _ _ hfind, undoFold_spec u.blockHashes st hK]
  refine ⟨rfl, rfl, ?_, rfl, rfl⟩
  rw [foldl_map_fuse]
  apply List.map_congr_left
  intro x hx
  exact foldl_bal_eq st.addresses hI _ x hx x rfl

/-- C3 counterexample to the claimed cursor update: undoing block "b1" from
a state whose cursor is (100, "b1") empties the rows and outputs but leaves
the cursor at (100, "b1") instead of the event's (99, "aa99"); the main
undo branch issues no UpdateLastProcessedBlock. -/
theorem C3_counterexample_cursor_not_set :
    (HandleChainReorganization noFail undoC3 stC3).txRows = [] ∧
    (HandleChainReorganization noFail undoC3 stC3).utxos = [] ∧
    ((HandleChainReorganization noFail undoC3 stC3).cursorHeight = 100 ∧
      (HandleChainReorganization noFail undoC3 stC3).cursorHash = "b1") ∧
    (undoC3.lastValidHeight = 99 ∧ undoC3.resumeFromBlock = "aa99") := by
  refine ⟨?_, ?_, ⟨?_, ?_⟩, ⟨rfl, rfl⟩⟩ <;> with_unfolding_all decide

/-- C3 witness: the amended theorem applied to the concrete one-row state. -/
theorem C3_reorg_undo_witness :
    (txKeys stC3.txRows).Nodup ∧
    (stC3.addresses.map TrackedAddress.id).Nodup ∧
    (stC3.addresses.map TrackedAddress.address).Nodup ∧
    ((HandleChainReorganization noFail undoC3 stC3).txRows
        = stC3.txRows.filter (fun r => !undoneRow undoC3.blockHashes r) ∧
      (HandleChainReorganization noFail undoC3 stC3).utxos
        = stC3.utxos.filter (fun v => !undoneUtxo undoC3.blockHashes stC3.txRows v) ∧
      (HandleChainReorganization noFail undoC3 stC3).addresses
        = stC3.addresses.map (fun a => { a with balance := reorgBalance undoC3 stC3 a }) ∧
      (HandleChainReorganization noFail undoC3 stC3).cursorHeight = stC3.cursorHeight ∧
      (HandleChainReorganization noFail undoC3 stC3).cursorHash = stC3.cursorHash) :=
  ⟨by decide, by decide, by decide,
    C3_reorg_undo undoC3 stC3 (by decide) (by decide) (by decide)⟩

/-! ## C5: DecodeBlock on AuxPoW blocks. -/

theorem dstable_dpure {α : Type} (a : α) : DStable (dpure a) := by
  intro xs r k h
  simp only [dpure, Option.some.injEq, Prod.mk.injEq] at h
  obtain ⟨rfl, rfl⟩ := h
  exact ⟨Nat.zero_le _, fun ys => rfl⟩

theorem dstable_dfail {α : Type} : DStable (dfail : Decoder α) := by
  intro xs r k h
  exact absurd h (by simp [dfail])

theorem dstable_readBytes (n : Nat) : DStable (readBytes n) := by
  intro xs r k h
  simp only [readBytes] at h
  by_cases hn : n ≤ xs.length
  · rw [if_pos hn] at h
    obtain ⟨rfl, rfl⟩ := by
      simpa [Option.some.injEq, Prod.mk.injEq] using h
    refine ⟨hn, fun ys => ?_⟩
    have hlt : (xs.take n).length = n := List.length_take_of_le hn
    simp only [readBytes]
    rw [if_pos (by simp [hlt])]
    rw [List.take_append_of_le_length (Nat.le_of_eq hlt.symm), List.take_take,
      Nat.min_self]
  · rw [if_neg hn] at h
    exact absurd h (by simp)

theorem dstable_dbind {α β : Type} (p : Decoder α) (q : α → Decoder β)
    (hp : DStable p) (hq : ∀ a, DStable (q a)) : DStable (dbind p q) := by
  intro xs r k h
  simp only [dbind] at h
  rcases hpx : p xs with _ | ⟨a, k1⟩
  · simp only [hpx] at h
    exact absurd h (by simp)
  · simp only [hpx] at h
    rcases hqx : q a (xs.drop k1) with _ | ⟨b, m⟩
    · simp only [hqx] at h
      exact absurd h (by simp)
    · simp only [hqx] at h
      obtain ⟨rfl, rfl⟩ := by
        simpa [Option.some.injEq, Prod.mk.injEq] using h
      obtain ⟨hk1, hstab1⟩ := hp xs a k1 hpx
      obtain ⟨hm, hstab2⟩ := hq a (xs.drop k1) b m hqx
      have hlen : k1 + m ≤ xs.length := by
        have : m ≤ xs.length - k1 := by simpa [List.length_drop] using hm
        omega
      refine ⟨hlen, fun ys => ?_⟩
      have hsplit : xs.take (k1 + m) ++ ys = xs.take k1 ++ ((xs.drop k1).take m ++ ys) := by
        rw [List.take_add, List.append_assoc]
      have hdrop : (xs.take k1 ++ ((xs.drop k1).take m ++ ys)).drop k1 =
          (xs.drop k1).take m ++ ys :=
        List.drop_left' (List.length_take_of_le hk1)
      rw [hsplit]
      simp only [dbind, hstab1 ((xs.drop k1).take m ++ ys), hdrop, hstab2 ys]

theorem dstable_varInt : DStable varIntDecoder := by
  refine dstable_dbind _ _ (dstable_readBytes 1) ?_
  intro bs
  rcases bs with _ | ⟨b0, rest⟩
  · exact dstable_dfail
  · rcases rest with _ | ⟨b1, rest2⟩
    · show DStable (if b0 < 253 then dpure b0
        else if b0 = 253 then dbind (readBytes 2) (fun t => dpure (leBytesToNat t))
        else if b0 = 254 then dbind (readBytes 4) (fun t => dpure (leBytesToNat t))
        else dbind (readBytes 8) (fun t => dpure (leBytesToNat t)))
      by_cases h1 : b0 < 253
      · rw [if_pos h1]
        exact dstable_dpure b0
      · rw [if_neg h1]
        by_cases h2 : b0 = 253
        · rw [if_pos h2]
          exact dstable_dbind _ _ (dstable_readBytes 2) (fun t => dstable_dpure _)
        · rw [if_neg h2]
          by_cases h3 : b0 = 254
          · rw [if_pos h3]
            exact dstable_dbind _ _ (dstable_readBytes 4) (fun t => dstable_dpure _)
          · rw [if_neg h3]
            exact dstable_dbind _ _ (dstable_readBytes 8) (fun t => dstable_dpure _)
    · exact dstable_dfail

theorem dstable_dcount {α : Type} (p : Decoder α) (hp : DStable p) (n : Nat) :
    DStable (dcount p n) := by
  induction n with
  | zero => exact dstable_dpure []
  | succ m ih =>
      exact dstable_dbind _ _ hp (fun a => dstable_dbind _ _ ih (fun as => dstable_dpure _))

theorem dstable_txIn : DStable txInDecoder := by
  refine dstable_dbind _ _ (dstable_readBytes 32) (fun ph => ?_)
  refine dstable_dbind _ _ (dstable_readBytes 4) (fun pidx => ?_)
  refine dstable_dbind _ _ dstable_varInt (fun sl => ?_)
  refine dstable_dbind _ _ (dstable_readBytes sl) (fun sc => ?_)
  refine dstable_dbind _ _ (dstable_readBytes 4) (fun sq => ?_)
  exact dstable_dpure _

theorem dstable_txOut : DStable txOutDecoder := by
  refine dstable_dbind _ _ (dstable_readBytes 8) (fun v => ?_)
  refine dstable_dbind _ _ dstable_varInt (fun sl => ?_)
  refine dstable_dbind _ _ (dstable_readBytes sl) (fun sc => ?_)
  exact dstable_dpure _

theorem dstable_DecodeTransaction : DStable DecodeTransaction := by
  refine dstable_dbind _ _ (dstable_readBytes 4) (fun ver => ?_)
  refine dstable_dbind _ _ dstable_varInt (fun nin => ?_)
  refine dstable_dbind _ _ (dstable_dcount _ dstable_txIn nin) (fun ins => ?_)
  refine dstable_dbind _ _ dstable_varInt (fun nout => ?_)
  refine dstable_dbind _ _ (dstable_dcount _ dstable_txOut nout) (fun outs => ?_)
  refine dstable_dbind _ _ (dstable_readBytes 4) (fun lt => ?_)
  exact dstable_dpure _

theorem varInt_consumes_pos (xs : List Nat) (c n : Nat)
    (h : varIntDecoder xs = some (c, n)) : 0 < n := by
  simp only [varIntDecoder, dbind, readBytes] at h
  by_cases h1 : 1 ≤ xs.length
  · rw [if_pos h1] at h
    simp only at h
    split at h
    · exact absurd h (by simp)
    · simp only [Option.some.injEq, Prod.mk.injEq] at h
      obtain ⟨h3, h4⟩ := h
      omega
  · rw [if_neg h1] at h
    exact absurd h (by simp)

theorem take_drop_append (l1 l2 : List Nat) (o n : Nat) (h : o + n ≤ l1.length) :
    ((l1 ++ l2).drop o).take n = (l1.drop o).take n := by
  rw [List.drop_append_of_le_length (by omega),
    List.take_append_of_le_length (by rw [List.length_drop]; omega)]

theorem parseHeader80_append (hdr80 zs : List Nat) (hlen : hdr80.length = 80) :
    parseHeader80 (hdr80 ++ zs) = parseHeader80 hdr80 := by
  simp only [parseHeader80, CodecBlockHeader.mk.injEq]
  refine ⟨?_, ?_, ?_, ?_, ?_, ?_⟩
  · rw [List.take_append_of_le_length (by omega)]
  · rw [take_drop_append _ _ _ _ (by omega)]
  · rw [take_drop_append _ _ _ _ (by omega)]
  · rw [take_drop_append _ _ _ _ (by omega)]
  · rw [take_drop_append _ _ _ _ (by omega)]
  · rw [take_drop_append _ _ _ _ (by omega)]

theorem DecodeBlock_auxpow_ok (hdr80 zs : List Nat) (c n k : Nat) (tx : DecTx)
    (hlen : hdr80.length = 80)
    (hver : 0x20000000 ≤ leBytesToNat (hdr80.take 4))
    (hv : varIntDecoder zs = some (c, n))
    (hc : 0 < c)
    (ht : DecodeTransaction (zs.drop n) = some (tx, k)) :
    DecodeBlock (hdr80 ++ zs) = .ok { header := parseHeader80 hdr80, tx := [tx] } := by
  have hnpos : 0 < n := varInt_consumes_pos zs c n hv
  simp only [DecodeBlock]
  rw [if_neg (by rw [List.length_append]; omega)]
  rw [List.drop_append_of_le_length (by omega)]
  have hdz : hdr80.drop 80 = [] := List.drop_eq_nil_of_le (by omega)
  rw [hdz, List.nil_append, parseHeader80_append hdr80 zs hlen]
  have hver2 : (parseHeader80 hdr80).version ≥ 0x20000000 := hver
  rw [if_pos hver2]
  simp only [DecodeVarInt, hv]
  rw [if_neg (by omega)]
  rw [if_pos (by simpa using hc)]
  simp only [ht]

/-- C5: an input whose 80-byte header carries version at least 0x20000000,
whose tx-count varint is positive and whose first transaction decodes, makes
DecodeBlock succeed with exactly that one coinbase transaction; and the
result is unchanged when everything after the varint and the coinbase --
the AuxPoW bytes -- is replaced arbitrarily, so those bytes are never read.
-/
theorem C5_auxpow_coinbase_only (hdr80 tl : List Nat) (c n k : Nat) (tx : DecTx)
    (hlen : hdr80.length = 80)
    (hver : 0x20000000 ≤ leBytesToNat (hdr80.take 4))
    (hvc : varIntDecoder tl = some (c, n))
    (hc : 0 < c)
    (htx : DecodeTransaction (tl.drop n) = some (tx, k)) :
    DecodeBlock (hdr80 ++ tl) = .ok { header := parseHeader80 hdr80, tx := [tx] } ∧
    ∀ rest, DecodeBlock (hdr80 ++ (tl.take (n + k) ++ rest))
      = .ok { header := parseHeader80 hdr80, tx := [tx] } := by
  obtain ⟨hn_le, hvst⟩ := dstable_varInt tl c n hvc
  obtain ⟨hk_le, htst⟩ := dstable_DecodeTransaction (tl.drop n) tx k htx
  refine ⟨DecodeBlock_auxpow_ok hdr80 tl c n k tx hlen hver hvc hc htx, fun rest => ?_⟩
  have hsplit : tl.take (n + k) ++ rest = tl.take n ++ ((tl.drop n).take k ++ rest) := by
    rw [List.take_add, List.append_assoc]
  have hdrop : (tl.take n ++ ((tl.drop n).take k ++ rest)).drop n =
      (tl.drop n).take k ++ rest :=
    List.drop_left' (List.length_take_of_le hn_le)
  rw [hsplit]
  exact DecodeBlock_auxpow_ok hdr80 _ c n k tx hlen hver
    (hvst ((tl.drop n).take k ++ rest)) hc (by rw [hdrop]; exact htst rest)

/-- C5 witness: the theorem applied to a concrete AuxPoW block whose two
trailing AuxPoW bytes are junk. -/
theorem C5_auxpow_coinbase_only_witness :
    (hdrC5.length = 80 ∧ 0x20000000 ≤ leBytesToNat (hdrC5.take 4) ∧
      varIntDecoder tailC5 = some (1, 1) ∧ 0 < 1 ∧
      DecodeTransaction (tailC5.drop 1) = some (decTxC5, 60)) ∧
    (DecodeBlock (hdrC5 ++ tailC5) = .ok { header := parseHeader80 hdrC5, tx := [decTxC5] } ∧
      ∀ rest, DecodeBlock (hdrC5 ++ (tailC5.take (1 + 60) ++ rest))
        = .ok { header := parseHeader80 hdrC5, tx := [decTxC5] }) :=
  ⟨⟨by decide, by decide, by decide, by decide, by decide⟩,
    C5_auxpow_coinbase_only hdrC5 tailC5 1 1 60 decTxC5 (by decide) (by decide)
      (by decide) (by decide) (by decide)⟩

/-! ## C7: SPV header sync batching. -/

theorem wordBE_lt (w : Nat) : ∀ b ∈ wordBE w, b < 256 := by
  intro b hb
  simp only [wordBE, List.mem_cons, List.not_mem_nil, or_false] at hb
  rcases hb with rfl | rfl | rfl | rfl <;> exact Nat.mod_lt _ (by norm_num)

theorem sha256_length (msg : List Nat) : (sha256 msg).length = 32 := by
  simp [sha256, wordBE]

theorem sha256_bytes_lt (msg : List Nat) : ∀ b ∈ sha256 msg, b < 256 := by
  intro b hb
  simp only [sha256, List.mem_append] at hb
  rcases hb with ((((((h | h) | h) | h) | h) | h) | h) | h <;> exact wordBE_lt _ b h

theorem beBytesToNat_lt_aux (bs : List Nat) (acc : Nat) (h : ∀ b ∈ bs, b < 256) :
    bs.foldl (fun acc b => acc * 256 + b) acc < (acc + 1) * 256 ^ bs.length := by
  induction bs generalizing acc with
  | nil => simp
  | cons b t ih =>
      simp only [List.foldl_cons, List.length_cons]
      have hb : b < 256 := h b (List.mem_cons_self b t)
      have h1 := ih (acc * 256 + b) (fun x hx => h x (List.mem_cons_of_mem b hx))
      have h2 : (acc * 256 + b + 1) * 256 ^ t.length ≤ (acc + 1) * 256 ^ (t.length + 1) := by
        have h3 : acc * 256 + b + 1 ≤ (acc + 1) * 256 := by omega
        calc (acc * 256 + b + 1) * 256 ^ t.length
            ≤ ((acc + 1) * 256) * 256 ^ t.length := Nat.mul_le_mul_right _ h3
          _ = (acc + 1) * 256 ^ (t.length + 1) := by ring
      omega

theorem hash_lt_2_256 (msg : List Nat) :
    beBytesToNat (doubleSha256 msg) < 2 ^ 256 := by
  have h1 := beBytesToNat_lt_aux (sha256 (sha256 msg)) 0 (sha256_bytes_lt _)
  rw [sha256_length] at h1
  have h2 : (0 + 1) * 256 ^ 32 = 2 ^ 256 := by norm_num
  rw [h2] at h1
  simpa [beBytesToNat, doubleSha256] using h1

theorem compactC7 : CompactToBig 4286578687 = 8388607 * 2 ^ 2016 := by
  have h1 : 4286578687 &&& 8388607 = 8388607 := by decide
  have h2 : 4286578687 / 2 ^ 24 = 255 := by norm_num
  have h3 : 4286578687 &&& 8388608 = 0 := by decide
  simp only [CompactToBig, h1, h2, h3]
  norm_num

theorem hash_le_targetC7 (h : SpvBlockHeader) (hbits : h.bits = 4286578687) :
    ¬((beBytesToNat (headerGetHash h) : Int) > CompactToBig h.bits) := by
  rw [hbits, compactC7]
  have h1 : beBytesToNat (headerGetHash h) < 2 ^ 256 := hash_lt_2_256 _
  have h2 : ((beBytesToNat (headerGetHash h) : Int)) < (2 : Int) ^ 256 := by
    exact_mod_cast h1
  have h3 : (2 : Int) ^ 256 ≤ 8388607 * 2 ^ 2016 := by
    calc (2 : Int) ^ 256 ≤ 2 ^ 2016 :=
          pow_le_pow_right₀ (by norm_num) (by norm_num)
      _ ≤ 8388607 * 2 ^ 2016 :=
          le_mul_of_one_le_left (pow_nonneg (by norm_num) 2016) (by norm_num)
  exact not_lt.2 (le_of_lt (lt_of_lt_of_le h2 h3))

theorem chunk_fieldsC7 (a b : Nat) :
    (parseSpvHeader (a :: b :: hdrC7.take 78)).version = a + 256 * b + 131072 ∧
    (parseSpvHeader (a :: b :: hdrC7.take 78)).time = 0 ∧
    (parseSpvHeader (a :: b :: hdrC7.take 78)).bits = 4286578687 := by
  refine ⟨?_, ?_, ?_⟩
  · show leBytesToNat ((a :: b :: hdrC7.take 78).take 4) = _
    have h2 : (hdrC7.take 78).take 2 = [2, 0] := by decide
    have h4 : (a :: b :: hdrC7.take 78).take 4 = a :: b :: (hdrC7.take 78).take 2 := rfl
    rw [h4, h2]
    show a + 256 * (b + 256 * (2 + 256 * 0)) = _
    ring
  · show leBytesToNat (((a :: b :: hdrC7.take 78).drop 68).take 4) = 0
    have hd : (a :: b :: hdrC7.take 78).drop 68 = (hdrC7.take 78).drop 66 := rfl
    rw [hd]
    decide
  · show leBytesToNat (((a :: b :: hdrC7.take 78).drop 72).take 4) = 4286578687
    have hd : (a :: b :: hdrC7.take 78).drop 72 = (hdrC7.take 78).drop 70 := rfl
    rw [hd]
    decide

theorem validate_chunkC7 (hgt a b : Nat) :
    validateHeader envC7 hgt (parseSpvHeader (a :: b :: hdrC7.take 78)) = .ok () := by
  obtain ⟨hv, ht, hb⟩ := chunk_fieldsC7 a b
  unfold validateHeader
  rw [if_neg (by omega)]
  rw [if_neg (by rw [ht]; show ¬((1099511627776 : Int) < ((0 : Nat) : Int)); norm_num)]
  rw [if_neg (by simp [envC7])]
  rw [if_neg (hash_le_targetC7 _ hb)]

theorem flatten_replicate_lengthC7 (n : Nat) :
    ((List.replicate n hdrC7).flatten).length = 80 * n := by
  induction n with
  | zero => rfl
  | succ k ih =>
      rw [List.replicate_succ, List.flatten_cons, List.length_append, ih,
        show hdrC7.length = 80 from by decide]
      ring

theorem headersLoopC7 (m : Nat) : ∀ (a b height : Nat),
    ∃ stored, headersLoop envC7 m (a :: b :: (List.replicate m hdrC7).flatten) height
      = .ok (height + m, stored) := by
  induction m with
  | zero =>
      intro a b height
      exact ⟨[], by simp [headersLoop]⟩
  | succ k ih =>
      intro a b height
      obtain ⟨stored, hst⟩ := ih 0 0 (height + 1)
      refine ⟨{ parseSpvHeader (a :: b :: hdrC7.take 78) with height := height + 1 } :: stored, ?_⟩
      simp only [headersLoop]
      rw [if_neg (by
        simp only [List.length_cons, flatten_replicate_lengthC7]
        omega)]
      have hchunk : (a :: b :: (List.replicate (k + 1) hdrC7).flatten).take 80
          = a :: b :: hdrC7.take 78 := by
        rw [List.replicate_succ, List.flatten_cons]
        calc (a :: b :: (hdrC7 ++ (List.replicate k hdrC7).flatten)).take 80
            = a :: b :: (hdrC7 ++ (List.replicate k hdrC7).flatten).take 78 := rfl
          _ = a :: b :: hdrC7.take 78 := by
              rw [List.take_append_of_le_length (by rw [show hdrC7.length = 80 from by decide]; omega)]
      have hdrop : (a :: b :: (List.replicate (k + 1) hdrC7).flatten).drop 80
          = 0 :: 0 :: (List.replicate k hdrC7).flatten := by
        rw [List.replicate_succ, List.flatten_cons]
        calc (a :: b :: (hdrC7 ++ (List.replicate k hdrC7).flatten)).drop 80
            = (hdrC7 ++ (List.replicate k hdrC7).flatten).drop 78 := rfl
          _ = hdrC7.drop 78 ++ (List.replicate k hdrC7).flatten :=
              List.drop_append_of_le_length (by rw [show hdrC7.length = 80 from by decide]; omega)
          _ = 0 :: 0 :: (List.replicate k hdrC7).flatten := by
              rw [show hdrC7.drop 78 = [0, 0] from by decide]
              rfl
      rw [hchunk, validate_chunkC7 height a b, hdrop, hst,
        show height + 1 + k = height + (k + 1) from by omega]

theorem handleHeaders_ok_of_ne (env : SpvEnv) (st : SpvState) (payload : List Nat)
    (c h2 : Nat) (stored : List SpvBlockHeader)
    (hvc : ReadVarInt payload = .ok c) (hc0 : c ≠ 0)
    (hloop : headersLoop env c (payload.drop 1) st.currentHeight = .ok (h2, stored))
    (hne : c ≠ MaxHeadersResults) :
    handleHeadersMessage env st payload = .ok (hhNeOutcome st h2 stored) := by
  unfold handleHeadersMessage
  simp only [hvc]
  rw [if_neg hc0]
  simp only [hloop]
  rw [if_neg hne]
  simp only [hhNeOutcome]

theorem ReadVarInt_fd (b1 b2 : Nat) (rest : List Nat) :
    ReadVarInt (253 :: b1 :: b2 :: rest) = .ok (b1 + 256 * b2) := by
  simp [ReadVarInt, leBytesToNat]

theorem headersLoop_length (env : SpvEnv) (n : Nat) :
    ∀ bytes height hf stored, headersLoop env n bytes height = .ok (hf, stored) →
      stored.length = n := by
  induction n with
  | zero =>
      intro bytes height hf stored h
      simp only [headersLoop, Except.ok.injEq, Prod.mk.injEq] at h
      rw [← h.2]
      rfl
  | succ k ih =>
      intro bytes height hf stored h
      simp only [headersLoop] at h
      split at h
      · exact absurd h (by simp)
      · split at h
        · exact absurd h (by simp)
        · split at h
          · exact absurd h (by simp)
          · rename_i hf0 stored0 heq
            simp only [Except.ok.injEq, Prod.mk.injEq] at h
            rw [← h.2, List.length_cons, ih _ _ _ _ heq]

theorem getLast?_some_of_ne_nil {α : Type} (l : List α) (h : l ≠ []) :
    ∃ t, l.getLast? = some t := by
  rcases l with _ | ⟨a, t⟩
  · exact absurd rfl h
  · exact ⟨(a :: t).getLast (by simp), List.getLast?_eq_getLast (a :: t) (by simp)⟩

/-- C7 counterexample: a valid headers message delivering exactly 2000
headers (the claim's threshold) makes the code mark header sync complete
and request nothing, where the claim expects a follow-up getheaders. -/
theorem C7_counterexample_2000_headers :
    ReadVarInt payloadC7 = .ok 2000 ∧
    (2000 : Nat) ≠ MaxHeadersResults ∧
    (handleHeadersMessage envC7 stC7 payloadC7).map
      (fun r => (r.requested, r.state.headerSyncComplete)) = .ok (none, true) := by
  obtain ⟨stored, hloop⟩ := headersLoopC7 2000 0xd0 0x07 0
  have hrv : ReadVarInt payloadC7 = .ok 2000 := by
    show ReadVarInt (253 :: 208 :: 7 :: (List.replicate 2000 hdrC7).flatten) = .ok 2000
    rw [ReadVarInt_fd]
  have hne : (2000 : Nat) ≠ MaxHeadersResults := by norm_num [MaxHeadersResults]
  have hmain := handleHeaders_ok_of_ne envC7 stC7 payloadC7 2000 (0 + 2000) stored hrv
    (by norm_num) hloop hne
  refine ⟨hrv, hne, ?_⟩
  rw [hmain]
  rfl

/-- C7 (amended): the batch threshold is MaxHeadersResults = 1000, not
2000.  On a successfully processed headers message, exactly when the
announced count equals 1000 the session sends another getheaders whose
locator is the hex hash of the last stored header (the new chain tip),
leaving headerSyncComplete untouched; for every other count -- fewer OR
more, including the claimed 2000 -- no request is sent and header
synchronization is marked complete. -/
theorem C7_header_sync_threshold (env : SpvEnv) (st : SpvState) (payload : List Nat)
    (c : Nat) (r : HeadersOutcome)
    (hvc : ReadVarInt payload = .ok c)
    (hr : handleHeadersMessage env st payload = .ok r) :
    MaxHeadersResults = 1000 ∧
    (c = MaxHeadersResults →
      ∃ t, r.stored.getLast? = some t ∧ r.state.chainTip = some t ∧
        r.requested = some (HexEncode (headerGetHash t)) ∧
        r.state.headerSyncComplete = st.headerSyncComplete) ∧
    (c ≠ MaxHeadersResults →
      r.requested = none ∧ r.state.headerSyncComplete = true) := by
  unfold handleHeadersMessage at hr
  simp only [hvc] at hr
  by_cases hc0 : c = 0
  · rw [if_pos hc0] at hr
    have hrr := (Except.ok.inj hr).symm
    refine ⟨rfl, ?_, ?_⟩
    · intro hcm
      rw [hc0] at hcm
      exact absurd hcm (by norm_num [MaxHeadersResults])
    · intro hne
      rw [hrr]
      exact ⟨rfl, rfl⟩
  · rw [if_neg hc0] at hr
    rcases hloop : headersLoop env c (payload.drop 1) st.currentHeight with e | ⟨h2, stored⟩
    · simp only [hloop] at hr
      exact absurd hr (by simp)
    · simp only [hloop] at hr
      by_cases hcm : c = MaxHeadersResults
      · rw [if_pos hcm] at hr
        have hrr := (Except.ok.inj hr).symm
        have hlen := headersLoop_length env c _ _ _ _ hloop
        have hsne : stored ≠ [] := by
          intro hnil
          rw [hnil] at hlen
          rw [hcm] at hlen
          exact absurd hlen.symm (by norm_num [MaxHeadersResults])
        obtain ⟨t, ht⟩ := getLast?_some_of_ne_nil stored hsne
        refine ⟨rfl, ?_, ?_⟩
        · intro _
          refine ⟨t, ?_, ?_, ?_, ?_⟩
          · rw [hrr]
            exact ht
          · rw [hrr]
            show stored.getLast?.orElse (fun _ => st.chainTip) = some t
            rw [ht]
            rfl
          · rw [hrr]
            show (stored.getLast?.orElse (fun _ => st.chainTip)).map
              (fun t => HexEncode (headerGetHash t)) = _
            rw [ht]
            rfl
          · rw [hrr]
        · intro hne
          exact absurd hcm hne
      · rw [if_neg hcm] at hr
        have hrr := (Except.ok.inj hr).symm
        refine ⟨rfl, ?_, ?_⟩
        · intro hcm2
          exact absurd hcm2 hcm
        · intro _
          rw [hrr]
          exact ⟨rfl, rfl⟩

/-- C7 witness: the amended theorem applied to an empty headers message,
whose count 0 differs from MaxHeadersResults. -/
theorem C7_header_sync_threshold_witness :
    (ReadVarInt [0] = .ok 0 ∧
      handleHeadersMessage envC7 stC7 [0] = .ok r0C7) ∧
    (MaxHeadersResults = 1000 ∧
      ((0 : Nat) = MaxHeadersResults →
        ∃ t, r0C7.stored.getLast? = some t ∧ r0C7.state.chainTip = some t ∧
          r0C7.requested = some (HexEncode (headerGetHash t)) ∧
          r0C7.state.headerSyncComplete = stC7.headerSyncComplete) ∧
      ((0 : Nat) ≠ MaxHeadersResults →
        r0C7.requested = none ∧ r0C7.state.headerSyncComplete = true)) :=
  ⟨⟨by decide, by decide⟩,
    C7_header_sync_threshold envC7 stC7 [0] 0 r0C7 (by decide) (by decide)⟩
